import Mathlib

/-!
Verification of the bot-kraken trading bot (src/bot.js, second source variant:
the express server with sqlite `trades` table, `/alerta`, `/vender`,
`checkTrade`, `checkBalance`, `validateTradingPair`, `calculateQuantity`,
`initializeDB`).

Shallow embedding conventions:
- SQLite REAL price and amount columns are modelled as rationals; the nullable
  columns `sellPrice` and `profitPercent` are `Option` valued.
- The `status` TEXT column takes exactly the values the code writes:
  "active" (default on INSERT), "completed" (checkTrade and /vender on a
  successful sell) and "error" (checkTrade when the exchange reports
  Insufficient funds); it is modelled by the inductive `Status`, with
  `statusText` giving the stored string.
- External effects (kraken Balance, ticker price fetch, AddOrder) are
  modelled as oracle parameters of each operation: the price fetch is an
  `Option` rational (none = fetch failed or falsy), `AddOrder` for a sell has
  outcome success / rejected-with-Insufficient-funds / other failure.
- The engine is modelled twice: `stepEv` runs each HTTP handler or
  per-position check atomically (no interleaving between its SELECT and its
  UPDATEs), which corresponds to non-overlapping timer ticks and serialized
  requests; `fineStep` additionally splits `/alerta` at its await points
  (check-then-insert) and `checkTrade` at its SELECT snapshot, which is what
  the node runtime actually allows, and is used to exhibit the races.
-/

/-- Lifecycle status values actually stored by the code in the `status`
column of the `trades` table. -/
inductive Status where
  | active
  | completed
  | error
deriving DecidableEq, Repr

/-- Exact TEXT value the code writes to the `status` column. -/
def statusText : Status → String
  | Status.active => "active"
  | Status.completed => "completed"
  | Status.error => "error"

/-- One row of the `trades` table (columns that carry lifecycle state;
`buyOrderId`, `createdAt` and `updatedAt` carry no lifecycle logic and are
omitted). -/
structure Trade where
  id : Nat
  pair : String
  quantity : ℚ
  stopPercent : ℚ
  highestPrice : ℚ
  buyPrice : ℚ
  sellPrice : Option ℚ
  profitPercent : Option ℚ
  status : Status
deriving DecidableEq, Repr

/-- Row freshly INSERTed by `/alerta`: `highestPrice` and `buyPrice` are both
the fetched `currentPrice`, `sellPrice` and `profitPercent` are NULL and
`status` takes its column default value "active". -/
def mkTrade (id : Nat) (pair : String) (qty stop price : ℚ) : Trade :=
  { id := id, pair := pair, quantity := qty, stopPercent := stop,
    highestPrice := price, buyPrice := price,
    sellPrice := none, profitPercent := none, status := Status.active }

/-- Model of `UPDATE trades SET ... WHERE id = ?`: rewrite every row whose id
matches. -/
def updateById (id : Nat) (f : Trade → Trade) (db : List Trade) : List Trade :=
  db.map (fun t => if t.id == id then f t else t)

/-- Model of `SELECT * FROM trades WHERE pair = ? AND status = 'active'
LIMIT 1` (used by `/alerta` and `/vender`). -/
def findActive (db : List Trade) (pair : String) : Option Trade :=
  db.find? (fun t => t.pair == pair && t.status == Status.active)

/-- Re-reading one row by id, filtered to active status, as the periodic
`SELECT * FROM trades WHERE status = 'active'` does before `checkTrade` runs
on that row. -/
def findActiveById (db : List Trade) (id : Nat) : Option Trade :=
  db.find? (fun t => t.id == id && t.status == Status.active)

/-- Truncation used by `/vender`:
`Math.floor((available * percent / 100) * 100000000) / 100000000`. -/
def floor8 (q : ℚ) : ℚ := (⌊q * 100000000⌋ : ℚ) / 100000000

/-- Rounding performed by `Number.prototype.toFixed(8)` followed by
`parseFloat`: round to the nearest multiple of 10 ^ (-8). -/
def toFixed8 (q : ℚ) : ℚ := (round (q * 100000000) : ℚ) / 100000000

/-- Modelled from the spec: `getPairInfo` is called by `calculateQuantity`
("Implementar según los pares que uses") but is implemented nowhere in the
repository; the spec fixes the sizing precision at 8 fractional decimal
digits, which is also the code fallback `pairInfo?.precision || 8`, so the
model returns no pair specific precision. -/
def getPairInfo (_pair : String) : Option Nat := none

/-- Source `calculateQuantity(amount, price, pair)` of the server variant:
`parseFloat((amount / price).toFixed(precision))` with `precision` 8 from
`pairInfo?.precision || 8`. -/
def calculateQuantity (amount price : ℚ) (pair : String) : ℚ :=
  let precision := (getPairInfo pair).getD 8
  (round (amount / price * (10 : ℚ) ^ precision) : ℚ) / (10 : ℚ) ^ precision

/-- JS `pair.toUpperCase().replace(/[^A-Z0-9]/g, "")` from
`validateTradingPair`. -/
def cleanPairOf (s : String) : String :=
  String.mk ((s.data.map Char.toUpper).filter
    (fun c => ('A' ≤ c && c ≤ 'Z') || ('0' ≤ c && c ≤ '9')))

/-- Quote currencies accepted by `validateTradingPair` of the server
variant. -/
def validCurrencies : List String := ["USD", "EUR", "GBP", "CAD", "USDT"]

/-- JS `String.prototype.endsWith`. -/
def endsWithStr (s suffix : String) : Bool := suffix.data.isSuffixOf s.data

/-- Source `validateTradingPair(pair)` of the server variant: clean the pair,
require a valid quote-currency suffix and length at least 5; returns the
cleaned pair, or none where the JS throws. -/
def validateTradingPair (pair : String) : Option String :=
  let cleanPair := cleanPairOf pair
  if validCurrencies.any (fun c => endsWithStr cleanPair c) then
    if 5 ≤ cleanPair.data.length then some cleanPair else none
  else none

/-- JS `s.slice(-3)`: the last three characters (the code uses this as the
quote currency, e.g. `cleanPair.slice(-3)` in `/alerta`). -/
def jsSliceLast3 (s : String) : String :=
  String.mk (s.data.drop (s.data.length - 3))

/-- JS `s.slice(0, -3)`: everything before the last three characters (the
code uses this as the base asset in `checkTrade` and `/vender`). -/
def jsSliceDropLast3 (s : String) : String :=
  String.mk (s.data.take (s.data.length - 3))

/-- Outcome of the kraken `AddOrder` sell call as seen by the caller:
the order is executed, or the call throws an error whose message contains
"Insufficient funds", or it throws some other error. -/
inductive SellOutcome where
  | success
  | rejectedInsufficientFunds
  | unavailable
deriving DecidableEq, Repr

/-- Writes that one `checkTrade` invocation issues, described against the row
snapshot it read: an optional `UPDATE ... SET highestPrice`, and an optional
closing `UPDATE` (completed with sell fields, or status error from the
Insufficient-funds catch branch). `sellSubmitted` records that `AddOrder`
was called, `sellExecuted` that the exchange executed the sell. -/
inductive CloseWrite where
  | completedW (sellPrice profitPercent : ℚ)
  | errorW
deriving DecidableEq, Repr

structure CheckResult where
  highWrite : Option ℚ
  closeWrite : Option CloseWrite
  sellSubmitted : Bool
  sellExecuted : Bool
deriving DecidableEq, Repr

/-- Source `checkTrade(trade)` computed over the row snapshot `t`:
fetch the price (falsy or failed fetch aborts with no write); update
`highestPrice` only when `Math.max(trade.highestPrice, currentPrice)` strictly
exceeds the stored value; compute
`stopPrice = newHighestPrice * (1 - trade.stopPercent / 100)`; when
`currentPrice <= stopPrice`, pre-check the base-asset balance (its failure
throws a Spanish message that the catch clause does not recognise, so no
status write), then sell: a successful sell writes status completed with
`sellPrice = currentPrice` and
`profitPercent = (currentPrice - buyPrice) / buyPrice * 100`; an
Insufficient-funds rejection writes status error; any other failure writes
nothing further. -/
def checkTradeStep (t : Trade) (price : Option ℚ) (balanceOk : Bool)
    (oc : SellOutcome) : CheckResult :=
  match price with
  | none => ⟨none, none, false, false⟩
  | some p =>
    if p = 0 then ⟨none, none, false, false⟩ else
    let newHigh := max t.highestPrice p
    let hw : Option ℚ := if t.highestPrice < newHigh then some newHigh else none
    let stopPrice := newHigh * (1 - t.stopPercent / 100)
    if p ≤ stopPrice then
      if balanceOk then
        match oc with
        | SellOutcome.success =>
            ⟨hw, some (CloseWrite.completedW p ((p - t.buyPrice) / t.buyPrice * 100)),
              true, true⟩
        | SellOutcome.rejectedInsufficientFunds =>
            ⟨hw, some CloseWrite.errorW, true, false⟩
        | SellOutcome.unavailable => ⟨hw, none, true, false⟩
      else ⟨hw, none, false, false⟩
    else ⟨hw, none, false, false⟩

/-- Application of the writes of one `checkTrade` invocation to one row. -/
def applyCheckWrites (r : CheckResult) (c : Trade) : Trade :=
  let c1 := match r.highWrite with
    | some h => { c with highestPrice := h }
    | none => c
  match r.closeWrite with
  | some (CloseWrite.completedW sp pp) =>
      { c1 with
        status := Status.completed
        sellPrice := some sp
        profitPercent := some pp }
  | some CloseWrite.errorW => { c1 with status := Status.error }
  | none => c1

/-- Both UPDATE statements of a `checkTrade` invocation target
`WHERE id = ?`, so their combined effect on the table is a single rewrite of
the rows with that id. -/
def applyWrites (r : CheckResult) (id : Nat) (db : List Trade) : List Trade :=
  updateById id (applyCheckWrites r) db

/-- Response of `/alerta` as far as the database is concerned: a new trade,
the skip answer `{ status: "skip", tradeId }`, or an error response. -/
inductive OpenResult where
  | success (id : Nat)
  | skip (existingId : Nat)
  | errorOut
deriving DecidableEq, Repr

/-- Kraken API calls issued by `/alerta` (the public ticker fetch is not a
kraken account call and is not listed). -/
inductive ExchangeCall where
  | balanceQuery
  | buyOrder
deriving DecidableEq, Repr

structure OpenOutcome where
  db : List Trade
  nextId : Nat
  result : OpenResult
  calls : List ExchangeCall
deriving DecidableEq, Repr

/-- Source `/alerta` handler run atomically, in source order: validate the
pair, the amount and the stop percent; `checkBalance(currency, amount)`
(a kraken Balance call) BEFORE the lookup for an existing active trade; on an
existing active trade answer skip; otherwise fetch the price (falsy aborts),
compute the quantity, submit the market buy and INSERT the new row. -/
def openAtomic (db : List Trade) (nextId : Nat) (par : String) (amount stop : ℚ)
    (balanceOk : Bool) (price : Option ℚ) (buyOk : Bool) : OpenOutcome :=
  match validateTradingPair par with
  | none => ⟨db, nextId, OpenResult.errorOut, []⟩
  | some cleanPair =>
    if amount ≤ 0 then ⟨db, nextId, OpenResult.errorOut, []⟩
    else if stop ≤ 0 ∨ 100 ≤ stop then ⟨db, nextId, OpenResult.errorOut, []⟩
    else if !balanceOk then
      ⟨db, nextId, OpenResult.errorOut, [ExchangeCall.balanceQuery]⟩
    else
      match findActive db cleanPair with
      | some t => ⟨db, nextId, OpenResult.skip t.id, [ExchangeCall.balanceQuery]⟩
      | none =>
        match price with
        | none => ⟨db, nextId, OpenResult.errorOut, [ExchangeCall.balanceQuery]⟩
        | some p =>
          if p = 0 then ⟨db, nextId, OpenResult.errorOut, [ExchangeCall.balanceQuery]⟩
          else if !buyOk then
            ⟨db, nextId, OpenResult.errorOut,
              [ExchangeCall.balanceQuery, ExchangeCall.buyOrder]⟩
          else
            ⟨db ++ [mkTrade nextId cleanPair (calculateQuantity amount p cleanPair) stop p],
              nextId + 1, OpenResult.success nextId,
              [ExchangeCall.balanceQuery, ExchangeCall.buyOrder]⟩

structure VenderOutcome where
  db : List Trade
  result : Option (Nat × ℚ × ℚ × ℚ)
  sells : List Nat
deriving DecidableEq, Repr

/-- Source `/vender` handler run atomically, in source order: validate the
pair and the percentage (0 < percent <= 100); look up the active trade for
the pair (none aborts); read the base-asset balance and compute
`volume = Math.floor((available * percent / 100) * 1e8) / 1e8` (non-positive
volume aborts); fetch the price (falsy aborts); submit the market sell (a
throw aborts with no row change); on success UPDATE the found row to status
completed with `sellPrice = currentPrice` and
`profitPercent = (currentPrice - buyPrice) / buyPrice * 100`. On success the
result carries (tradeId, volume sold, exit price, profit percent). -/
def venderAtomic (db : List Trade) (par : String) (percent balance : ℚ)
    (price : Option ℚ) (oc : SellOutcome) : VenderOutcome :=
  match validateTradingPair par with
  | none => ⟨db, none, []⟩
  | some cleanPair =>
    if percent ≤ 0 ∨ 100 < percent then ⟨db, none, []⟩
    else
      match findActive db cleanPair with
      | none => ⟨db, none, []⟩
      | some t =>
        let volume := floor8 (balance * percent / 100)
        if volume ≤ 0 then ⟨db, none, []⟩
        else
          match price with
          | none => ⟨db, none, []⟩
          | some p =>
            if p = 0 then ⟨db, none, []⟩ else
            match oc with
            | SellOutcome.success =>
              let pp := (p - t.buyPrice) / t.buyPrice * 100
              ⟨updateById t.id
                  (fun c => { c with
                    status := Status.completed
                    sellPrice := some p
                    profitPercent := some pp }) db,
                some (t.id, volume, p, pp), [t.id]⟩
            | _ => ⟨db, none, []⟩

/-- Startup backfill of `initializeDB`: every row with status completed,
`profitPercent IS NULL`, `sellPrice IS NOT NULL` (and `buyPrice` present,
which every engine row has) gets
`profitPercent = (sellPrice - buyPrice) / buyPrice * 100`. -/
def backfillRow (t : Trade) : Trade :=
  if t.status == Status.completed && t.profitPercent == none then
    match t.sellPrice with
    | some sp =>
        { t with profitPercent := some ((sp - t.buyPrice) / t.buyPrice * 100) }
    | none => t
  else t

def backfillDb (db : List Trade) : List Trade := db.map backfillRow

/-- Events of the coarse engine model: each event is one HTTP handler or one
per-position `checkTrade`, run atomically. Oracle arguments carry what the
exchange and the price feed answered during that event. -/
inductive Event where
  | openEv (par : String) (amount stop : ℚ) (balanceOk : Bool)
      (price : Option ℚ) (buyOk : Bool)
  | tickEv (id : Nat) (price : Option ℚ) (balanceOk : Bool) (oc : SellOutcome)
  | venderEv (par : String) (percent balance : ℚ) (price : Option ℚ)
      (oc : SellOutcome)
  | backfillEv

/-- Engine state: the `trades` table, the AUTOINCREMENT counter, and the log
of position ids for which the exchange executed an exit sell order. -/
structure EngineState where
  db : List Trade
  nextId : Nat
  sells : List Nat
deriving DecidableEq, Repr

def initState : EngineState := ⟨[], 0, []⟩

/-- One atomic event of the coarse model. A `tickEv` re-reads the current row
(it only runs on rows the periodic `SELECT ... WHERE status = 'active'`
returned), which is exactly the behaviour of non-overlapping tick
invocations. -/
def stepEv (s : EngineState) (e : Event) : EngineState :=
  match e with
  | Event.openEv par amount stop balanceOk price buyOk =>
    let o := openAtomic s.db s.nextId par amount stop balanceOk price buyOk
    { db := o.db, nextId := o.nextId, sells := s.sells }
  | Event.tickEv id price balanceOk oc =>
    match findActiveById s.db id with
    | none => s
    | some t =>
      let r := checkTradeStep t price balanceOk oc
      { db := applyWrites r id s.db, nextId := s.nextId,
        sells := if r.sellExecuted then s.sells ++ [id] else s.sells }
  | Event.venderEv par percent balance price oc =>
    let v := venderAtomic s.db par percent balance price oc
    { db := v.db, nextId := s.nextId, sells := s.sells ++ v.sells }
  | Event.backfillEv =>
    { db := backfillDb s.db, nextId := s.nextId, sells := s.sells }

def runFrom (s : EngineState) (es : List Event) : EngineState :=
  es.foldl stepEv s

def runEvents (es : List Event) : EngineState := runFrom initState es

/-- Pending `/alerta` invocation that has passed its active-trade lookup but
has not yet INSERTed (the handler awaits the ticker fetch and the buy order
in between). -/
structure PendingOpen where
  pair : String
  amount : ℚ
  stop : ℚ
deriving DecidableEq, Repr

/-- State of the fine-grained model: additionally the in-flight `/alerta`
invocations and the in-flight `checkTrade` invocations (each holding the row
snapshot its tick SELECT produced). -/
structure FineState where
  db : List Trade
  nextId : Nat
  pendingOpens : List PendingOpen
  pendingChecks : List Trade
  sells : List Nat
deriving DecidableEq, Repr

def fineInit : FineState := ⟨[], 0, [], [], []⟩

/-- Events of the fine-grained model: `/alerta` split at its await points
into the part up to and including the existing-trade SELECT and the part
from the price fetch to the INSERT; a timer tick split into its SELECT of
all active rows and the completion of each spawned `checkTrade`. -/
inductive FineEvent where
  | openStart (par : String) (amount stop : ℚ) (balanceOk : Bool)
  | openFinish (k : Nat) (price : Option ℚ) (buyOk : Bool)
  | tickSelect
  | tickFinish (k : Nat) (price : Option ℚ) (balanceOk : Bool) (oc : SellOutcome)

def fineStep (s : FineState) (e : FineEvent) : FineState :=
  match e with
  | FineEvent.openStart par amount stop balanceOk =>
    match validateTradingPair par with
    | none => s
    | some cleanPair =>
      if amount ≤ 0 then s
      else if stop ≤ 0 ∨ 100 ≤ stop then s
      else if !balanceOk then s
      else
        match findActive s.db cleanPair with
        | some _ => s
        | none =>
          { s with pendingOpens := s.pendingOpens ++ [⟨cleanPair, amount, stop⟩] }
  | FineEvent.openFinish k price buyOk =>
    match s.pendingOpens[k]? with
    | none => s
    | some po =>
      let s1 := { s with pendingOpens := s.pendingOpens.eraseIdx k }
      match price with
      | none => s1
      | some p =>
        if p = 0 then s1
        else if !buyOk then s1
        else
          { s1 with
            db := s1.db ++
              [mkTrade s1.nextId po.pair (calculateQuantity po.amount p po.pair) po.stop p],
            nextId := s1.nextId + 1 }
  | FineEvent.tickSelect =>
    { s with pendingChecks :=
        s.pendingChecks ++ s.db.filter (fun t => t.status == Status.active) }
  | FineEvent.tickFinish k price balanceOk oc =>
    match s.pendingChecks[k]? with
    | none => s
    | some snap =>
      let s1 := { s with pendingChecks := s.pendingChecks.eraseIdx k }
      let r := checkTradeStep snap price balanceOk oc
      { s1 with
        db := applyWrites r snap.id s1.db
        sells := if r.sellExecuted then s1.sells ++ [snap.id] else s1.sells }

def fineRun (es : List FineEvent) : FineState := es.foldl fineStep fineInit

/-- Trace refuting the no-double-sell guarantee: one position is opened, two
timer ticks fire and both SELECT the row while it is still active (the first
invocation has not yet flipped the status), then both invocations find the
price at or below the stop and both submit a sell, because `checkTrade` never
re-reads the status of its snapshot. -/
def doubleSellTrace : List FineEvent :=
  [ FineEvent.openStart "ABCUSD" 100 5 true,
    FineEvent.openFinish 0 (some 10) true,
    FineEvent.tickSelect,
    FineEvent.tickSelect,
    FineEvent.tickFinish 0 (some 9) true SellOutcome.success,
    FineEvent.tickFinish 0 (some 9) true SellOutcome.success ]

/-- Trace refuting the unique-active-row invariant under concurrent opens:
two `/alerta` invocations for the same pair both pass the existing-trade
SELECT before either INSERTs, then both INSERT. -/
def doubleOpenTrace : List FineEvent :=
  [ FineEvent.openStart "ABCUSD" 100 5 true,
    FineEvent.openStart "ABCUSD" 100 5 true,
    FineEvent.openFinish 0 (some 10) true,
    FineEvent.openFinish 0 (some 10) true ]

/-- Demo active position: opened on pair ABCUSD at price 10 with quantity 10
and trailing stop 5 percent. -/
def tradeDemo : Trade := mkTrade 0 "ABCUSD" 10 5 10

def dbDemo : List Trade := [tradeDemo]

/-- Scenario of the spec: open at price 10 with stop 5, then ticks at prices
10, 12 and 11.3. -/
def scenarioEvents : List Event :=
  [ Event.openEv "ABCUSD" 100 5 true (some 10) true,
    Event.tickEv 0 (some 10) true SellOutcome.success,
    Event.tickEv 0 (some 12) true SellOutcome.success,
    Event.tickEv 0 (some (113/10)) true SellOutcome.success ]

/-- Events producing a position in status error: open, then a tick whose sell
the exchange rejects with Insufficient funds. -/
def erroredEvents : List Event :=
  [ Event.openEv "ABCUSD" 100 5 true (some 10) true,
    Event.tickEv 0 (some 9) true SellOutcome.rejectedInsufficientFunds ]

/-- Quantity sizing as the spec words it: notional divided by price, floored
(rounded toward zero, hence never up; the two coincide on the positive
values in play) to 8 fractional decimal digits. Stated for comparison with
the source function `calculateQuantity`. -/
def quantityFlooredSpec (notional price : ℚ) : ℚ :=
  (⌊notional / price * 100000000⌋ : ℚ) / 100000000

/-- Invariant of the coarse engine model, proved to hold in every reachable
state: ids are fresh and functional, the high-water mark dominates the entry
price, at most one active row exists per pair, completed rows satisfy the
profit equation, and at most one executed exit sell is ever logged per
position id (none while the row is still active). -/
structure EngineInv (s : EngineState) : Prop where
  fresh : ∀ t ∈ s.db, t.id < s.nextId
  func : ∀ t1 ∈ s.db, ∀ t2 ∈ s.db, t1.id = t2.id → t1 = t2
  hwm : ∀ t ∈ s.db, t.buyPrice ≤ t.highestPrice
  uniqActive : ∀ pair : String,
    s.db.countP (fun t => t.pair == pair && t.status == Status.active) ≤ 1
  profitEq : ∀ t ∈ s.db, t.status = Status.completed →
    ∃ sp, t.sellPrice = some sp ∧
      t.profitPercent = some ((sp - t.buyPrice) / t.buyPrice * 100)
  sellsOnce : ∀ id : Nat, s.sells.count id ≤ 1
  sellsCompleted : ∀ id ∈ s.sells, ∀ t ∈ s.db, t.id = id → t.status = Status.completed
  sellsLive : ∀ id ∈ s.sells, ∃ t ∈ s.db, t.id = id ∧ t.status = Status.completed

theorem validABCUSD : validateTradingPair "ABCUSD" = some "ABCUSD" := by decide

theorem calcQ_100_10 : calculateQuantity 100 10 "ABCUSD" = 10 := by
  norm_num [calculateQuantity, getPairInfo, round_eq]

theorem calcQ_2_3 : calculateQuantity 2 3 "ABCUSD" = 66666667 / 100000000 := by
  norm_num [calculateQuantity, getPairInfo, round_eq]

theorem scenarioStep1 :
    stepEv initState (Event.openEv "ABCUSD" 100 5 true (some 10) true) =
    ⟨[⟨0, "ABCUSD", 10, 5, 10, 10, none, none, Status.active⟩], 1, []⟩ := by
  simp only [stepEv, openAtomic, validABCUSD, initState, findActive, List.find?, mkTrade,
    calcQ_100_10]
  norm_num

theorem scenarioStep2 :
    stepEv ⟨[⟨0, "ABCUSD", 10, 5, 10, 10, none, none, Status.active⟩], 1, []⟩
      (Event.tickEv 0 (some 10) true SellOutcome.success) =
    ⟨[⟨0, "ABCUSD", 10, 5, 10, 10, none, none, Status.active⟩], 1, []⟩ := by
  simp only [stepEv, findActiveById, List.find?, checkTradeStep, applyWrites, applyCheckWrites,
    updateById]
  norm_num

theorem scenarioStep3 :
    stepEv ⟨[⟨0, "ABCUSD", 10, 5, 10, 10, none, none, Status.active⟩], 1, []⟩
      (Event.tickEv 0 (some 12) true SellOutcome.success) =
    ⟨[⟨0, "ABCUSD", 10, 5, 12, 10, none, none, Status.active⟩], 1, []⟩ := by
  simp only [stepEv, findActiveById, List.find?, checkTradeStep, applyWrites, applyCheckWrites,
    updateById]
  norm_num

theorem scenarioStep4 :
    stepEv ⟨[⟨0, "ABCUSD", 10, 5, 12, 10, none, none, Status.active⟩], 1, []⟩
      (Event.tickEv 0 (some (113/10)) true SellOutcome.success) =
    ⟨[⟨0, "ABCUSD", 10, 5, 12, 10, some (113/10), some 13, Status.completed⟩], 1, [0]⟩ := by
  simp only [stepEv, findActiveById, List.find?, checkTradeStep, applyWrites, applyCheckWrites,
    updateById]
  norm_num

theorem scenarioFinal : runEvents scenarioEvents =
    ⟨[⟨0, "ABCUSD", 10, 5, 12, 10, some (113/10), some 13, Status.completed⟩], 1, [0]⟩ := by
  show List.foldl stepEv initState scenarioEvents = _
  rw [scenarioEvents, List.foldl_cons, scenarioStep1, List.foldl_cons, scenarioStep2,
    List.foldl_cons, scenarioStep3, List.foldl_cons, scenarioStep4, List.foldl_nil]

theorem erroredStep2 :
    stepEv ⟨[⟨0, "ABCUSD", 10, 5, 10, 10, none, none, Status.active⟩], 1, []⟩
      (Event.tickEv 0 (some 9) true SellOutcome.rejectedInsufficientFunds) =
    ⟨[⟨0, "ABCUSD", 10, 5, 10, 10, none, none, Status.error⟩], 1, []⟩ := by
  simp only [stepEv, findActiveById, List.find?, checkTradeStep, applyWrites, applyCheckWrites,
    updateById]
  norm_num

theorem erroredFinal : runEvents erroredEvents =
    ⟨[⟨0, "ABCUSD", 10, 5, 10, 10, none, none, Status.error⟩], 1, []⟩ := by
  show List.foldl stepEv initState erroredEvents = _
  rw [erroredEvents, List.foldl_cons, scenarioStep1, List.foldl_cons, erroredStep2,
    List.foldl_nil]

theorem fineStepA :
    fineStep fineInit (FineEvent.openStart "ABCUSD" 100 5 true) =
    ⟨[], 0, [⟨"ABCUSD", 100, 5⟩], [], []⟩ := by
  simp only [fineStep, validABCUSD, fineInit, findActive, List.find?]
  norm_num

theorem fineStepB :
    fineStep ⟨[], 0, [⟨"ABCUSD", 100, 5⟩], [], []⟩ (FineEvent.openFinish 0 (some 10) true) =
    ⟨[⟨0, "ABCUSD", 10, 5, 10, 10, none, none, Status.active⟩], 1, [], [], []⟩ := by
  simp only [fineStep, List.eraseIdx, mkTrade, calcQ_100_10]
  norm_num [calcQ_100_10]

theorem fineStepC :
    fineStep ⟨[⟨0, "ABCUSD", 10, 5, 10, 10, none, none, Status.active⟩], 1, [], [], []⟩
      FineEvent.tickSelect =
    ⟨[⟨0, "ABCUSD", 10, 5, 10, 10, none, none, Status.active⟩], 1, [],
      [⟨0, "ABCUSD", 10, 5, 10, 10, none, none, Status.active⟩], []⟩ := by
  simp only [fineStep, List.filter]
  norm_num

theorem fineStepD :
    fineStep ⟨[⟨0, "ABCUSD", 10, 5, 10, 10, none, none, Status.active⟩], 1, [],
      [⟨0, "ABCUSD", 10, 5, 10, 10, none, none, Status.active⟩], []⟩
      FineEvent.tickSelect =
    ⟨[⟨0, "ABCUSD", 10, 5, 10, 10, none, none, Status.active⟩], 1, [],
      [⟨0, "ABCUSD", 10, 5, 10, 10, none, none, Status.active⟩,
       ⟨0, "ABCUSD", 10, 5, 10, 10, none, none, Status.active⟩], []⟩ := by
  simp only [fineStep, List.filter]
  norm_num

theorem fineStepE :
    fineStep ⟨[⟨0, "ABCUSD", 10, 5, 10, 10, none, none, Status.active⟩], 1, [],
      [⟨0, "ABCUSD", 10, 5, 10, 10, none, none, Status.active⟩,
       ⟨0, "ABCUSD", 10, 5, 10, 10, none, none, Status.active⟩], []⟩
      (FineEvent.tickFinish 0 (some 9) true SellOutcome.success) =
    ⟨[⟨0, "ABCUSD", 10, 5, 10, 10, some 9, some (-10), Status.completed⟩], 1, [],
      [⟨0, "ABCUSD", 10, 5, 10, 10, none, none, Status.active⟩], [0]⟩ := by
  simp only [fineStep, List.eraseIdx, checkTradeStep, applyWrites, applyCheckWrites, updateById]
  norm_num

theorem fineStepF :
    fineStep ⟨[⟨0, "ABCUSD", 10, 5, 10, 10, some 9, some (-10), Status.completed⟩], 1, [],
      [⟨0, "ABCUSD", 10, 5, 10, 10, none, none, Status.active⟩], [0]⟩
      (FineEvent.tickFinish 0 (some 9) true SellOutcome.success) =
    ⟨[⟨0, "ABCUSD", 10, 5, 10, 10, some 9, some (-10), Status.completed⟩], 1, [], [], [0, 0]⟩ := by
  simp only [fineStep, List.eraseIdx, checkTradeStep, applyWrites, applyCheckWrites, updateById]
  norm_num

theorem doubleSellFinal : fineRun doubleSellTrace =
    ⟨[⟨0, "ABCUSD", 10, 5, 10, 10, some 9, some (-10), Status.completed⟩], 1, [], [], [0, 0]⟩ := by
  show List.foldl fineStep fineInit doubleSellTrace = _
  rw [doubleSellTrace, List.foldl_cons, fineStepA, List.foldl_cons, fineStepB, List.foldl_cons,
    fineStepC, List.foldl_cons, fineStepD, List.foldl_cons, fineStepE, List.foldl_cons,
    fineStepF, List.foldl_nil]


theorem applyCheckWrites_preserved (r : CheckResult) (c : Trade) :
    (applyCheckWrites r c).id = c.id ∧ (applyCheckWrites r c).pair = c.pair ∧
    (applyCheckWrites r c).quantity = c.quantity ∧
    (applyCheckWrites r c).stopPercent = c.stopPercent ∧
    (applyCheckWrites r c).buyPrice = c.buyPrice := by
  rcases r with ⟨hw, cw, sb, se⟩
  rcases hw with _ | h <;> rcases cw with _ | (⟨sp, pp⟩ | _) <;> simp [applyCheckWrites]

theorem applyCheckWrites_status_cases (r : CheckResult) (c : Trade) :
    ((applyCheckWrites r c).status = c.status ∧
      (applyCheckWrites r c).sellPrice = c.sellPrice ∧
      (applyCheckWrites r c).profitPercent = c.profitPercent ∧ r.closeWrite = none) ∨
    ((applyCheckWrites r c).status = Status.error ∧
      (applyCheckWrites r c).sellPrice = c.sellPrice ∧
      (applyCheckWrites r c).profitPercent = c.profitPercent ∧
      r.closeWrite = some CloseWrite.errorW) ∨
    (∃ sp pp, r.closeWrite = some (CloseWrite.completedW sp pp) ∧
      (applyCheckWrites r c).status = Status.completed ∧
      (applyCheckWrites r c).sellPrice = some sp ∧
      (applyCheckWrites r c).profitPercent = some pp) := by
  rcases r with ⟨hw, cw, sb, se⟩
  rcases hw with _ | h <;> rcases cw with _ | (⟨sp, pp⟩ | _) <;> simp [applyCheckWrites]

theorem applyCheckWrites_high_cases (r : CheckResult) (c : Trade) :
    (applyCheckWrites r c).highestPrice = c.highestPrice ∨
    ∃ h, r.highWrite = some h ∧ (applyCheckWrites r c).highestPrice = h := by
  rcases r with ⟨hw, cw, sb, se⟩
  rcases hw with _ | h <;> rcases cw with _ | (⟨sp, pp⟩ | _) <;> simp [applyCheckWrites]

theorem checkTradeStep_highWrite (t : Trade) (pr : Option ℚ) (bo : Bool) (oc : SellOutcome) :
    (checkTradeStep t pr bo oc).highWrite = none ∨
    ∃ p, pr = some p ∧
      (checkTradeStep t pr bo oc).highWrite = some (max t.highestPrice p) ∧
      t.highestPrice < max t.highestPrice p := by
  rcases pr with _ | p
  · simp [checkTradeStep]
  · rcases oc <;> rcases bo <;> simp only [checkTradeStep] <;> split_ifs <;> simp_all

theorem checkTradeStep_closeWrite (t : Trade) (pr : Option ℚ) (bo : Bool) (oc : SellOutcome) :
    (checkTradeStep t pr bo oc).closeWrite = none ∨
    (checkTradeStep t pr bo oc).closeWrite = some CloseWrite.errorW ∨
    ∃ p, pr = some p ∧
      (checkTradeStep t pr bo oc).closeWrite =
        some (CloseWrite.completedW p ((p - t.buyPrice) / t.buyPrice * 100)) := by
  rcases pr with _ | p
  · simp [checkTradeStep]
  · rcases oc <;> rcases bo <;> simp only [checkTradeStep] <;> split_ifs <;> simp_all

theorem checkTradeStep_sellExecuted (t : Trade) (pr : Option ℚ) (bo : Bool) (oc : SellOutcome) :
    (checkTradeStep t pr bo oc).sellExecuted = true →
    ∃ p, pr = some p ∧
      (checkTradeStep t pr bo oc).closeWrite =
        some (CloseWrite.completedW p ((p - t.buyPrice) / t.buyPrice * 100)) := by
  rcases pr with _ | p
  · simp [checkTradeStep]
  · rcases oc <;> rcases bo <;> simp only [checkTradeStep] <;> split_ifs <;> simp_all


theorem openAtomic_cases (db : List Trade) (n : Nat) (par : String) (a st : ℚ)
    (bo : Bool) (pr : Option ℚ) (bu : Bool) :
    ((openAtomic db n par a st bo pr bu).db = db ∧
      (openAtomic db n par a st bo pr bu).nextId = n) ∨
    (∃ cp p, validateTradingPair par = some cp ∧ findActive db cp = none ∧ pr = some p ∧
      (openAtomic db n par a st bo pr bu).db =
        db ++ [mkTrade n cp (calculateQuantity a p cp) st p] ∧
      (openAtomic db n par a st bo pr bu).nextId = n + 1) := by
  unfold openAtomic
  rcases h : validateTradingPair par with _ | cp
  · simp
  · rcases h4 : findActive db cp with _ | t <;> rcases pr with _ | p <;>
      simp only [h4] <;> split_ifs <;>
      first
      | exact Or.inl ⟨rfl, rfl⟩
      | exact Or.inr ⟨cp, p, rfl, h4, rfl, rfl, rfl⟩

theorem venderAtomic_cases (db : List Trade) (par : String) (pc bal : ℚ)
    (pr : Option ℚ) (oc : SellOutcome) :
    ((venderAtomic db par pc bal pr oc).db = db ∧
      (venderAtomic db par pc bal pr oc).sells = []) ∨
    (∃ cp t p, validateTradingPair par = some cp ∧ findActive db cp = some t ∧
      pr = some p ∧ oc = SellOutcome.success ∧
      (venderAtomic db par pc bal pr oc).db =
        updateById t.id (fun c => { c with
          status := Status.completed
          sellPrice := some p
          profitPercent := some ((p - t.buyPrice) / t.buyPrice * 100) }) db ∧
      (venderAtomic db par pc bal pr oc).sells = [t.id]) := by
  unfold venderAtomic
  rcases h : validateTradingPair par with _ | cp
  · simp
  · rcases h2 : findActive db cp with _ | t <;> rcases pr with _ | p <;> rcases oc <;>
      simp only [h2] <;> split_ifs <;>
      first
      | exact Or.inr ⟨cp, t, p, rfl, h2, rfl, rfl, rfl, rfl⟩
      | exact Or.inl ⟨rfl, rfl⟩
      | (simp <;> exact ⟨t, h2, rfl, rfl⟩)

theorem backfillRow_cases (t : Trade) :
    backfillRow t = t ∨
    (t.status = Status.completed ∧ t.profitPercent = none ∧
      ∃ sp, t.sellPrice = some sp ∧
        backfillRow t = { t with profitPercent := some ((sp - t.buyPrice) / t.buyPrice * 100) }) := by
  unfold backfillRow
  by_cases hc : (t.status == Status.completed && t.profitPercent == none) = true
  · rcases hsp : t.sellPrice with _ | sp
    · simp [hc, hsp]
    · simp only [Bool.and_eq_true, beq_iff_eq] at hc
      right
      exact ⟨hc.1, hc.2, sp, rfl, by simp [hc.1, hc.2, hsp]⟩
  · simp [hc]

theorem mem_updateById (id : Nat) (f : Trade → Trade) (db : List Trade) (t2 : Trade) :
    t2 ∈ updateById id f db ↔
    ∃ t ∈ db, t2 = if t.id == id then f t else t := by
  unfold updateById
  rw [List.mem_map]
  constructor
  · rintro ⟨t, ht, rfl⟩
    exact ⟨t, ht, rfl⟩
  · rintro ⟨t, ht, rfl⟩
    exact ⟨t, ht, rfl⟩

theorem updateById_length (id : Nat) (f : Trade → Trade) (db : List Trade) :
    (updateById id f db).length = db.length := by
  unfold updateById
  rw [List.length_map]

theorem findActive_spec (db : List Trade) (pair : String) (t : Trade)
    (h : findActive db pair = some t) :
    t ∈ db ∧ t.pair = pair ∧ t.status = Status.active := by
  have h1 := List.mem_of_find?_eq_some h
  have h2 := List.find?_some h
  simp only [Bool.and_eq_true, beq_iff_eq] at h2
  exact ⟨h1, h2.1, h2.2⟩

theorem findActive_none (db : List Trade) (pair : String)
    (h : findActive db pair = none) :
    ∀ t ∈ db, ¬(t.pair = pair ∧ t.status = Status.active) := by
  intro t ht
  have := List.find?_eq_none.mp h t ht
  simp only [Bool.and_eq_true, beq_iff_eq] at this
  tauto

theorem findActiveById_spec (db : List Trade) (id : Nat) (t : Trade)
    (h : findActiveById db id = some t) :
    t ∈ db ∧ t.id = id ∧ t.status = Status.active := by
  have h1 := List.mem_of_find?_eq_some h
  have h2 := List.find?_some h
  simp only [Bool.and_eq_true, beq_iff_eq] at h2
  exact ⟨h1, h2.1, h2.2⟩

theorem engineInv_update (db : List Trade) (n : Nat) (sells : List Nat) (id : Nat)
    (t : Trade) (g : Trade → Trade) (didSell : Bool)
    (hInv : EngineInv ⟨db, n, sells⟩)
    (ht : t ∈ db) (hid : t.id = id) (hact : t.status = Status.active)
    (hpres : (g t).id = t.id ∧ (g t).pair = t.pair ∧ (g t).buyPrice = t.buyPrice)
    (hhigh : t.highestPrice ≤ (g t).highestPrice)
    (hstat : ((g t).status = t.status ∧ (g t).sellPrice = t.sellPrice ∧
        (g t).profitPercent = t.profitPercent) ∨
      ((g t).status = Status.error ∧ (g t).sellPrice = t.sellPrice ∧
        (g t).profitPercent = t.profitPercent) ∨
      (∃ sp, (g t).status = Status.completed ∧ (g t).sellPrice = some sp ∧
        (g t).profitPercent = some ((sp - t.buyPrice) / t.buyPrice * 100)))
    (hsell : didSell = true → (g t).status = Status.completed) :
    EngineInv ⟨updateById id g db, n, if didSell then sells ++ [id] else sells⟩ := by
  obtain ⟨fresh, func, hwm, uniqActive, profitEq, sellsOnce, sellsCompleted, sellsLive⟩ := hInv
  simp only at fresh func hwm uniqActive profitEq sellsOnce sellsCompleted sellsLive
  have hceq : ∀ c ∈ db, c.id = id → c = t := by
    intro c hc hcid
    exact func c hc t ht (hcid.trans hid.symm)
  have hmem2 : ∀ t2 ∈ updateById id g db, (t2 ∈ db ∧ t2.id ≠ id) ∨ t2 = g t := by
    intro t2 h2
    obtain ⟨c, hc, rfl⟩ := (mem_updateById id g db t2).mp h2
    by_cases hcid : c.id == id
    · right
      rw [if_pos hcid, hceq c hc (beq_iff_eq.mp hcid)]
    · left
      rw [if_neg hcid]
      exact ⟨hc, by simpa using hcid⟩
  have hfwd : ∀ c ∈ db, (if c.id == id then g c else c) ∈ updateById id g db := by
    intro c hc
    exact (mem_updateById id g db _).mpr ⟨c, hc, rfl⟩
  have hgt_mem : g t ∈ updateById id g db := by
    have := hfwd t ht
    rwa [if_pos (beq_iff_eq.mpr hid)] at this
  have hid_not_sold : id ∉ sells := by
    intro hmem
    have := sellsCompleted id hmem t ht hid
    rw [hact] at this
    exact Status.noConfusion this
  refine ⟨?_, ?_, ?_, ?_, ?_, ?_, ?_, ?_⟩
  · -- fresh
    intro t2 h2
    rcases hmem2 t2 h2 with ⟨hdb, _⟩ | rfl
    · exact fresh t2 hdb
    · simp only [hpres.1]
      exact hid ▸ fresh t ht
  · -- func
    intro t2 h2 t3 h3 hids
    rcases hmem2 t2 h2 with ⟨hdb2, hne2⟩ | rfl <;> rcases hmem2 t3 h3 with ⟨hdb3, hne3⟩ | rfl
    · exact func t2 hdb2 t3 hdb3 hids
    · exact absurd (hids.trans (hpres.1.trans hid)) hne2
    · exact absurd (hids.symm.trans (hpres.1.trans hid)) hne3
    · rfl
  · -- hwm
    intro t2 h2
    rcases hmem2 t2 h2 with ⟨hdb, _⟩ | rfl
    · exact hwm t2 hdb
    · rw [hpres.2.2]
      exact le_trans (hwm t ht) hhigh
  · -- uniqActive
    intro pair
    show (updateById id g db).countP _ ≤ 1
    unfold updateById
    rw [List.countP_map]
    refine le_trans (List.countP_mono_left ?_) (uniqActive pair)
    intro c hc hpc
    by_cases hcid : c.id == id
    · have hct := hceq c hc (beq_iff_eq.mp hcid)
      subst hct
      simp only [Function.comp, if_pos hcid] at hpc
      rcases hstat with ⟨hs, _, _⟩ | ⟨hs, _, _⟩ | ⟨sp, hs, _, _⟩
      · simp only [Bool.and_eq_true, beq_iff_eq] at hpc ⊢
        exact ⟨hpres.2.1 ▸ hpc.1, hs ▸ hpc.2⟩
      · simp only [Bool.and_eq_true, beq_iff_eq, hs] at hpc
        exact absurd hpc.2 (by simp)
      · simp only [Bool.and_eq_true, beq_iff_eq, hs] at hpc
        exact absurd hpc.2 (by simp)
    · simpa only [Function.comp, if_neg hcid] using hpc
  · -- profitEq
    intro t2 h2 hcomp
    rcases hmem2 t2 h2 with ⟨hdb, _⟩ | rfl
    · exact profitEq t2 hdb hcomp
    · rcases hstat with ⟨hs, _, _⟩ | ⟨hs, _, _⟩ | ⟨sp, _, hsp, hpp⟩
      · rw [hs, hact] at hcomp
        exact Status.noConfusion hcomp
      · rw [hs] at hcomp
        exact Status.noConfusion hcomp
      · exact ⟨sp, hsp, by rw [hpp, hpres.2.2]⟩
  · -- sellsOnce
    intro id2
    by_cases hds : didSell
    · rw [if_pos hds, List.count_append]
      by_cases h2 : id2 = id
      · subst h2
        rw [List.count_eq_zero.mpr hid_not_sold]
        simp
      · have : List.count id2 [id] = 0 := by
          rw [List.count_eq_zero]
          simp [h2]
        rw [this]
        simpa using sellsOnce id2
    · rw [if_neg hds]
      exact sellsOnce id2
  · -- sellsCompleted
    intro id2 hid2 t2 h2 ht2
    have hid2' : id2 ∈ sells ∨ id2 = id := by
      by_cases hds : didSell
      · rw [if_pos hds] at hid2
        rcases List.mem_append.mp hid2 with h | h
        · exact Or.inl h
        · exact Or.inr (by simpa using h)
      · rw [if_neg hds] at hid2
        exact Or.inl hid2
    rcases hmem2 t2 h2 with ⟨hdb, hne⟩ | rfl
    · rcases hid2' with h | h
      · exact sellsCompleted id2 h t2 hdb ht2
      · exact absurd (ht2.trans h) hne
    · have ht2id : (g t).id = id := hpres.1.trans hid
      rcases hid2' with h | h
      · have he : id2 = id := ht2.symm.trans ht2id
        rw [he] at h
        exact absurd h hid_not_sold
      · by_cases hds : didSell
        · exact hsell hds
        · rw [if_neg hds] at hid2
          simp only at hid2
          rw [h] at hid2
          exact absurd hid2 hid_not_sold
  · -- sellsLive
    intro id2 hid2
    have hid2' : id2 ∈ sells ∨ (id2 = id ∧ didSell = true) := by
      by_cases hds : didSell
      · rw [if_pos hds] at hid2
        rcases List.mem_append.mp hid2 with h | h
        · exact Or.inl h
        · exact Or.inr ⟨by simpa using h, hds⟩
      · rw [if_neg hds] at hid2
        exact Or.inl hid2
    rcases hid2' with h | ⟨rfl, hds⟩
    · obtain ⟨t3, ht3, ht3id, ht3c⟩ := sellsLive id2 h
      have ht3ne : t3.id ≠ id := by
        intro he
        have := hceq t3 ht3 he
        rw [this, hact] at ht3c
        exact Status.noConfusion ht3c
      refine ⟨t3, ?_, ht3id, ht3c⟩
      have := hfwd t3 ht3
      rwa [if_neg (by simpa using ht3ne)] at this
    · exact ⟨g t, hgt_mem, hpres.1.trans hid, hsell hds⟩

theorem invStepOpen (s : EngineState) (par : String) (a st : ℚ) (bo : Bool)
    (pr : Option ℚ) (bu : Bool) (hInv : EngineInv s) :
    EngineInv (stepEv s (Event.openEv par a st bo pr bu)) := by
  obtain ⟨db, n, sells⟩ := s
  show EngineInv ⟨(openAtomic db n par a st bo pr bu).db,
    (openAtomic db n par a st bo pr bu).nextId, sells⟩
  rcases openAtomic_cases db n par a st bo pr bu with ⟨hdb, hn⟩ |
    ⟨cp, p, hval, hfind, hpr, hdb, hn⟩
  · rw [hdb, hn]
    exact hInv
  · rw [hdb, hn]
    obtain ⟨fresh, func, hwm, uniqActive, profitEq, sellsOnce, sellsCompleted, sellsLive⟩ := hInv
    simp only at fresh func hwm uniqActive profitEq sellsOnce sellsCompleted sellsLive
    have hnew : (mkTrade n cp (calculateQuantity a p cp) st p).id = n := rfl
    refine ⟨?_, ?_, ?_, ?_, ?_, ?_, ?_, ?_⟩
    · intro t2 h2
      rcases List.mem_append.mp h2 with h | h
      · exact Nat.lt_succ_of_lt (fresh t2 h)
      · rw [List.mem_singleton.mp h]
        exact Nat.lt_succ_self n
    · intro t2 h2 t3 h3 hids
      rcases List.mem_append.mp h2 with h | h <;> rcases List.mem_append.mp h3 with h3m | h3m
      · exact func t2 h t3 h3m hids
      · rw [List.mem_singleton.mp h3m] at hids
        exact absurd (fresh t2 h) (by rw [hids, hnew]; exact Nat.lt_irrefl n)
      · rw [List.mem_singleton.mp h] at hids
        exact absurd (fresh t3 h3m) (by rw [← hids, hnew]; exact Nat.lt_irrefl n)
      · rw [List.mem_singleton.mp h, List.mem_singleton.mp h3m]
    · intro t2 h2
      rcases List.mem_append.mp h2 with h | h
      · exact hwm t2 h
      · rw [List.mem_singleton.mp h]
        exact le_refl _
    · intro pair
      show List.countP _ (db ++ _) ≤ 1
      rw [List.countP_append]
      by_cases hp : cp = pair
      · have hz : List.countP (fun t => t.pair == pair && t.status == Status.active) db = 0 := by
          rw [List.countP_eq_zero]
          intro t htm
          have := findActive_none db cp hfind t htm
          simp only [Bool.and_eq_true, beq_iff_eq]
          rw [← hp]
          tauto
        rw [hz]
        simpa using List.countP_le_length
          (fun t : Trade => t.pair == pair && t.status == Status.active)
      · have hz : List.countP (fun t => t.pair == pair && t.status == Status.active)
            [mkTrade n cp (calculateQuantity a p cp) st p] = 0 := by
          rw [List.countP_eq_zero]
          intro t htm
          rw [List.mem_singleton.mp htm]
          simp [mkTrade, hp]
        rw [hz]
        simpa using uniqActive pair
    · intro t2 h2 hcomp
      rcases List.mem_append.mp h2 with h | h
      · exact profitEq t2 h hcomp
      · rw [List.mem_singleton.mp h] at hcomp
        exact Status.noConfusion hcomp
    · exact sellsOnce
    · intro id2 hid2 t2 h2 ht2
      rcases List.mem_append.mp h2 with h | h
      · exact sellsCompleted id2 hid2 t2 h ht2
      · obtain ⟨t3, ht3, ht3id, ht3c⟩ := sellsLive id2 hid2
        rw [List.mem_singleton.mp h] at ht2
        rw [hnew] at ht2
        rw [← ht2] at ht3id
        exact absurd (ht3id ▸ fresh t3 ht3) (Nat.lt_irrefl n)
    · intro id2 hid2
      obtain ⟨t3, ht3, ht3id, ht3c⟩ := sellsLive id2 hid2
      exact ⟨t3, List.mem_append_left _ ht3, ht3id, ht3c⟩

theorem invStepTick (s : EngineState) (id : Nat) (pr : Option ℚ) (bo : Bool)
    (oc : SellOutcome) (hInv : EngineInv s) :
    EngineInv (stepEv s (Event.tickEv id pr bo oc)) := by
  obtain ⟨db, n, sells⟩ := s
  rcases hf : findActiveById db id with _ | t
  · simpa [stepEv, hf] using hInv
  · obtain ⟨ht, hid, hact⟩ := findActiveById_spec db id t hf
    have hstep : stepEv ⟨db, n, sells⟩ (Event.tickEv id pr bo oc) =
        ⟨updateById id (applyCheckWrites (checkTradeStep t pr bo oc)) db, n,
          if (checkTradeStep t pr bo oc).sellExecuted then sells ++ [id] else sells⟩ := by
      simp only [stepEv, hf, applyWrites]
    rw [hstep]
    have hpres := applyCheckWrites_preserved (checkTradeStep t pr bo oc) t
    refine engineInv_update db n sells id t _ _ hInv ht hid hact
      ⟨hpres.1, hpres.2.1, hpres.2.2.2.2⟩ ?_ ?_ ?_
    · rcases applyCheckWrites_high_cases (checkTradeStep t pr bo oc) t with h | ⟨h, hhw, heq⟩
      · rw [h]
      · rcases checkTradeStep_highWrite t pr bo oc with h2 | ⟨p, hp, h2, hlt⟩
        · rw [h2] at hhw
          exact Option.noConfusion hhw
        · rw [h2] at hhw
          rw [heq, ← Option.some_inj.mp hhw]
          exact le_max_left _ _
    · rcases applyCheckWrites_status_cases (checkTradeStep t pr bo oc) t with
        ⟨hs, hsp, hpp, _⟩ | ⟨hs, hsp, hpp, _⟩ | ⟨sp, pp, hcw, hs, hsp, hpp⟩
      · exact Or.inl ⟨hs, hsp, hpp⟩
      · exact Or.inr (Or.inl ⟨hs, hsp, hpp⟩)
      · rcases checkTradeStep_closeWrite t pr bo oc with h2 | h2 | ⟨p, hp, h2⟩
        · rw [h2] at hcw
          exact Option.noConfusion hcw
        · rw [h2] at hcw
          exact CloseWrite.noConfusion (Option.some_inj.mp hcw)
        · rw [h2] at hcw
          obtain ⟨he1, he2⟩ := CloseWrite.completedW.inj (Option.some_inj.mp hcw).symm
          exact Or.inr (Or.inr ⟨sp, hs, hsp, by rw [hpp, he2, he1]⟩)
    · intro hexec
      obtain ⟨p, hp, hcw⟩ := checkTradeStep_sellExecuted t pr bo oc hexec
      rcases applyCheckWrites_status_cases (checkTradeStep t pr bo oc) t with
        ⟨_, _, _, hn⟩ | ⟨_, _, _, hn⟩ | ⟨sp, pp, _, hs, _, _⟩
      · rw [hn] at hcw
        exact Option.noConfusion hcw
      · rw [hn] at hcw
        exact CloseWrite.noConfusion (Option.some_inj.mp hcw)
      · exact hs

theorem invStepVender (s : EngineState) (par : String) (pc bal : ℚ) (pr : Option ℚ)
    (oc : SellOutcome) (hInv : EngineInv s) :
    EngineInv (stepEv s (Event.venderEv par pc bal pr oc)) := by
  obtain ⟨db, n, sells⟩ := s
  show EngineInv ⟨(venderAtomic db par pc bal pr oc).db, n,
    sells ++ (venderAtomic db par pc bal pr oc).sells⟩
  rcases venderAtomic_cases db par pc bal pr oc with ⟨hdb, hsells⟩ |
    ⟨cp, t, p, hval, hfind, hpr, hoc, hdb, hsells⟩
  · rw [hdb, hsells, List.append_nil]
    exact hInv
  · rw [hdb, hsells]
    obtain ⟨ht, hpair, hact⟩ := findActive_spec db cp t hfind
    have := engineInv_update db n sells t.id t
      (fun c => { c with
        status := Status.completed
        sellPrice := some p
        profitPercent := some ((p - t.buyPrice) / t.buyPrice * 100) }) true
      hInv ht rfl hact ⟨rfl, rfl, rfl⟩ (le_refl _)
      (Or.inr (Or.inr ⟨p, rfl, rfl, rfl⟩)) (fun _ => rfl)
    simpa using this

theorem invStepBackfill (s : EngineState) (hInv : EngineInv s) :
    EngineInv (stepEv s Event.backfillEv) := by
  obtain ⟨db, n, sells⟩ := s
  show EngineInv ⟨db.map backfillRow, n, sells⟩
  obtain ⟨fresh, func, hwm, uniqActive, profitEq, sellsOnce, sellsCompleted, sellsLive⟩ := hInv
  simp only at fresh func hwm uniqActive profitEq sellsOnce sellsCompleted sellsLive
  have hrow : ∀ c : Trade, (backfillRow c).id = c.id ∧ (backfillRow c).pair = c.pair ∧
      (backfillRow c).status = c.status ∧ (backfillRow c).buyPrice = c.buyPrice ∧
      (backfillRow c).highestPrice = c.highestPrice ∧
      (backfillRow c).sellPrice = c.sellPrice := by
    intro c
    rcases backfillRow_cases c with h | ⟨_, _, sp, _, h⟩ <;> rw [h] <;> simp
  refine ⟨?_, ?_, ?_, ?_, ?_, ?_, ?_, ?_⟩
  · intro t2 h2
    obtain ⟨c, hc, rfl⟩ := List.mem_map.mp h2
    rw [(hrow c).1]
    exact fresh c hc
  · intro t2 h2 t3 h3 hids
    obtain ⟨c, hc, rfl⟩ := List.mem_map.mp h2
    obtain ⟨c3, hc3, rfl⟩ := List.mem_map.mp h3
    rw [(hrow c).1, (hrow c3).1] at hids
    rw [func c hc c3 hc3 hids]
  · intro t2 h2
    obtain ⟨c, hc, rfl⟩ := List.mem_map.mp h2
    rw [(hrow c).2.2.2.1, (hrow c).2.2.2.2.1]
    exact hwm c hc
  · intro pair
    show List.countP _ (db.map backfillRow) ≤ 1
    rw [List.countP_map]
    refine le_trans (le_of_eq (List.countP_congr ?_)) (uniqActive pair)
    intro c hc
    simp only [Function.comp, (hrow c).2.1, (hrow c).2.2.1]
  · intro t2 h2 hcomp
    obtain ⟨c, hc, rfl⟩ := List.mem_map.mp h2
    rw [(hrow c).2.2.1] at hcomp
    rcases backfillRow_cases c with h | ⟨hcs, hpn, sp, hsp, h⟩
    · rw [h]
      exact profitEq c hc hcomp
    · rw [h]
      exact ⟨sp, by simp [hsp], by simp⟩
  · exact sellsOnce
  · intro id2 hid2 t2 h2 ht2
    obtain ⟨c, hc, rfl⟩ := List.mem_map.mp h2
    rw [(hrow c).1] at ht2
    rw [(hrow c).2.2.1]
    exact sellsCompleted id2 hid2 c hc ht2
  · intro id2 hid2
    obtain ⟨t3, ht3, ht3id, ht3c⟩ := sellsLive id2 hid2
    refine ⟨backfillRow t3, List.mem_map.mpr ⟨t3, ht3, rfl⟩, ?_, ?_⟩
    · rw [(hrow t3).1]
      exact ht3id
    · rw [(hrow t3).2.2.1]
      exact ht3c

theorem invStep (s : EngineState) (e : Event) (hInv : EngineInv s) :
    EngineInv (stepEv s e) := by
  rcases e with ⟨par, a, st, bo, pr, bu⟩ | ⟨id, pr, bo, oc⟩ | ⟨par, pc, bal, pr, oc⟩ | _
  · exact invStepOpen s par a st bo pr bu hInv
  · exact invStepTick s id pr bo oc hInv
  · exact invStepVender s par pc bal pr oc hInv
  · exact invStepBackfill s hInv

theorem invInit : EngineInv initState := by
  refine ⟨?_, ?_, ?_, ?_, ?_, ?_, ?_, ?_⟩ <;> simp [initState]

theorem invRunFrom (es : List Event) (s : EngineState) (hInv : EngineInv s) :
    EngineInv (runFrom s es) := by
  induction es generalizing s with
  | nil => exact hInv
  | cons e es ih =>
    show EngineInv (runFrom (stepEv s e) es)
    exact ih (stepEv s e) (invStep s e hInv)

theorem invRun (es : List Event) : EngineInv (runEvents es) :=
  invRunFrom es initState invInit

theorem updateById_mem_of_ne (id : Nat) (g : Trade → Trade) (db : List Trade) (c : Trade)
    (hc : c ∈ db) (hne : c.id ≠ id) : c ∈ updateById id g db := by
  unfold updateById
  refine List.mem_map.mpr ⟨c, hc, ?_⟩
  show (if c.id == id then g c else c) = c
  rw [if_neg (by simpa using hne)]

theorem updateById_mem_self (id : Nat) (g : Trade → Trade) (db : List Trade) (c : Trade)
    (hc : c ∈ db) (hid : c.id = id) : g c ∈ updateById id g db := by
  unfold updateById
  refine List.mem_map.mpr ⟨c, hc, ?_⟩
  show (if c.id == id then g c else c) = g c
  rw [if_pos (by simpa using hid)]

theorem errorRow_step (s : EngineState) (e : Event) (id : Nat)
    (hInv : EngineInv s)
    (hEx : ∃ t ∈ s.db, t.id = id)
    (hErr : ∀ t ∈ s.db, t.id = id → t.status = Status.error) :
    (∃ t ∈ (stepEv s e).db, t.id = id) ∧
    (∀ t ∈ (stepEv s e).db, t.id = id → t.status = Status.error) ∧
    (stepEv s e).sells.count id = s.sells.count id := by
  obtain ⟨db, n, sells⟩ := s
  obtain ⟨t0, ht0, ht0id⟩ := hEx
  simp only at hErr ht0
  have ht0lt : id < n := ht0id ▸ hInv.fresh t0 ht0
  rcases e with ⟨par, a, st, bo, pr, bu⟩ | ⟨id2, pr, bo, oc⟩ | ⟨par, pc, bal, pr, oc⟩ | _
  · show (∃ t ∈ (openAtomic db n par a st bo pr bu).db, t.id = id) ∧
      (∀ t ∈ (openAtomic db n par a st bo pr bu).db, t.id = id → t.status = Status.error) ∧
      sells.count id = sells.count id
    rcases openAtomic_cases db n par a st bo pr bu with ⟨hdb, _⟩ |
      ⟨cp, p, _, _, _, hdb, _⟩
    · rw [hdb]
      exact ⟨⟨t0, ht0, ht0id⟩, hErr, rfl⟩
    · rw [hdb]
      refine ⟨⟨t0, List.mem_append_left _ ht0, ht0id⟩, ?_, rfl⟩
      intro t2 h2 ht2
      rcases List.mem_append.mp h2 with h | h
      · exact hErr t2 h ht2
      · rw [List.mem_singleton.mp h] at ht2
        have : (mkTrade n cp (calculateQuantity a p cp) st p).id = n := rfl
        rw [this] at ht2
        exact absurd ht0lt (by rw [← ht2]; exact Nat.lt_irrefl n)
  · rcases hf : findActiveById db id2 with _ | t
    · have hstep : stepEv ⟨db, n, sells⟩ (Event.tickEv id2 pr bo oc) = ⟨db, n, sells⟩ := by
        simp only [stepEv, hf]
      rw [hstep]
      exact ⟨⟨t0, ht0, ht0id⟩, hErr, rfl⟩
    · obtain ⟨ht, htid, hact⟩ := findActiveById_spec db id2 t hf
      have hne : id2 ≠ id := by
        intro he
        have := hErr t ht (htid.trans he)
        rw [hact] at this
        exact Status.noConfusion this
      have hstep : stepEv ⟨db, n, sells⟩ (Event.tickEv id2 pr bo oc) =
          ⟨updateById id2 (applyCheckWrites (checkTradeStep t pr bo oc)) db, n,
            if (checkTradeStep t pr bo oc).sellExecuted then sells ++ [id2] else sells⟩ := by
        simp only [stepEv, hf, applyWrites]
      rw [hstep]
      have hpres := applyCheckWrites_preserved (checkTradeStep t pr bo oc)
      refine ⟨?_, ?_, ?_⟩
      · exact ⟨t0, updateById_mem_of_ne id2 _ db t0 ht0 (by rw [ht0id]; exact Ne.symm hne), ht0id⟩
      · intro t2 h2 ht2
        obtain ⟨c, hc, rfl⟩ := (mem_updateById id2 _ db t2).mp h2
        by_cases hcid : c.id == id2
        · rw [if_pos hcid] at ht2 ⊢
          rw [(hpres c).1] at ht2
          exact absurd ((beq_iff_eq.mp hcid).symm.trans ht2) hne
        · rw [if_neg hcid] at ht2 ⊢
          exact hErr c hc ht2
      · by_cases hexec : (checkTradeStep t pr bo oc).sellExecuted
        · rw [if_pos hexec]
          simp only [List.count_append]
          have hz : List.count id [id2] = 0 := by
            rw [List.count_eq_zero]
            simp only [List.mem_singleton]
            exact Ne.symm hne
          rw [hz, Nat.add_zero]
        · rw [if_neg hexec]
  · show (∃ t ∈ (venderAtomic db par pc bal pr oc).db, t.id = id) ∧
      (∀ t ∈ (venderAtomic db par pc bal pr oc).db, t.id = id → t.status = Status.error) ∧
      (sells ++ (venderAtomic db par pc bal pr oc).sells).count id = sells.count id
    rcases venderAtomic_cases db par pc bal pr oc with ⟨hdb, hsells⟩ |
      ⟨cp, t, p, _, hfind, _, _, hdb, hsells⟩
    · rw [hdb, hsells, List.append_nil]
      exact ⟨⟨t0, ht0, ht0id⟩, hErr, rfl⟩
    · obtain ⟨ht, hpair, hact⟩ := findActive_spec db cp t hfind
      have hne : t.id ≠ id := by
        intro he
        have := hErr t ht he
        rw [hact] at this
        exact Status.noConfusion this
      rw [hdb, hsells]
      refine ⟨?_, ?_, ?_⟩
      · exact ⟨t0, updateById_mem_of_ne t.id _ db t0 ht0 (by rw [ht0id]; exact Ne.symm hne),
          ht0id⟩
      · intro t2 h2 ht2
        obtain ⟨c, hc, rfl⟩ := (mem_updateById t.id _ db t2).mp h2
        by_cases hcid : c.id == t.id
        · rw [if_pos hcid] at ht2 ⊢
          simp only at ht2
          exact absurd ((beq_iff_eq.mp hcid).symm.trans ht2) hne
        · rw [if_neg hcid] at ht2 ⊢
          exact hErr c hc ht2
      · simp only [List.count_append]
        have hz : List.count id [t.id] = 0 := by
          rw [List.count_eq_zero]
          simp only [List.mem_singleton]
          exact Ne.symm hne
        rw [hz, Nat.add_zero]
  · show (∃ t ∈ db.map backfillRow, t.id = id) ∧
      (∀ t ∈ db.map backfillRow, t.id = id → t.status = Status.error) ∧
      sells.count id = sells.count id
    have hrow : ∀ c : Trade, (backfillRow c).id = c.id ∧ (backfillRow c).status = c.status := by
      intro c
      rcases backfillRow_cases c with h | ⟨_, _, sp, _, h⟩ <;> rw [h] <;> simp
    refine ⟨⟨backfillRow t0, List.mem_map.mpr ⟨t0, ht0, rfl⟩, (hrow t0).1.trans ht0id⟩, ?_, rfl⟩
    intro t2 h2 ht2
    obtain ⟨c, hc, rfl⟩ := List.mem_map.mp h2
    rw [(hrow c).1] at ht2
    rw [(hrow c).2]
    exact hErr c hc ht2

theorem errorRow_run (s : EngineState) (es : List Event) (id : Nat)
    (hInv : EngineInv s) (hEx : ∃ t ∈ s.db, t.id = id)
    (hErr : ∀ t ∈ s.db, t.id = id → t.status = Status.error) :
    (∀ t ∈ (runFrom s es).db, t.id = id → t.status = Status.error) ∧
    (runFrom s es).sells.count id = s.sells.count id := by
  induction es generalizing s with
  | nil => exact ⟨hErr, rfl⟩
  | cons e es ih =>
    obtain ⟨hEx2, hErr2, hc⟩ := errorRow_step s e id hInv hEx hErr
    obtain ⟨hErr3, hc3⟩ := ih (stepEv s e) (invStep s e hInv) hEx2 hErr2
    exact ⟨hErr3, hc3.trans hc⟩

theorem calcQ_eq (a p : ℚ) (s : String) :
    calculateQuantity a p s = (round (a / p * 100000000) : ℚ) / 100000000 := by
  unfold calculateQuantity getPairInfo
  norm_num

/-- Claim C1, counterexample: two overlapping tick invocations both SELECT the
same active position before either completes; `checkTrade` never re-confirms
the status of its snapshot and its UPDATE is unconditional, so both
invocations submit an exit sell and the exchange executes two sell orders for
position 0. -/
theorem c1_counterexample :
    (fineRun doubleSellTrace).sells = [0, 0] ∧
    ¬ (fineRun doubleSellTrace).sells.count 0 ≤ 1 := by
  rw [doubleSellFinal]
  decide

/-- Claim C1, amended: when engine operations are serialized (each tick
invocation and each manual close runs to completion before the next SELECT,
the coarse model), at most one executed exit sell order is ever logged per
position across any sequence of opens, ticks, manual closes and backfills.
With overlapping tick invocations the guarantee fails (see the
counterexample), because the transition out of active status is only read,
never re-confirmed, before the sell. -/
theorem c1_amended (es : List Event) (id : Nat) :
    (runEvents es).sells.count id ≤ 1 :=
  (invRun es).sellsOnce id

/-- Claim C2, counterexample: two concurrent `/alerta` invocations for the
same pair both pass the existing-active-trade SELECT before either INSERTs
(the handler awaits the ticker fetch and the buy order in between), so two
rows with the same pair and status active exist afterwards. -/
theorem c2_counterexample :
    (fineRun doubleOpenTrace).db.countP
      (fun t => t.pair == "ABCUSD" && t.status == Status.active) = 2 ∧
    ¬ (fineRun doubleOpenTrace).db.countP
      (fun t => t.pair == "ABCUSD" && t.status == Status.active) ≤ 1 := by
  decide

/-- Claim C2, amended: when `/alerta` invocations are serialized (the coarse
model), every reachable store state has at most one row per pair with status
active, and an open finding an existing active trade answers skip with the
existing trade id and leaves the table unchanged. Interleaved opens can
create two active rows (see the counterexample), because the check and the
INSERT are not atomic. -/
theorem c2_amended :
    (∀ (es : List Event) (pair : String),
      (runEvents es).db.countP (fun t => t.pair == pair && t.status == Status.active) ≤ 1) ∧
    (∀ (db : List Trade) (n : Nat) (par : String) (a st : ℚ) (pr : Option ℚ) (bu : Bool)
      (cp : String) (t : Trade),
      validateTradingPair par = some cp → 0 < a → 0 < st → st < 100 →
      findActive db cp = some t →
      (openAtomic db n par a st true pr bu).result = OpenResult.skip t.id ∧
      (openAtomic db n par a st true pr bu).db = db) := by
  constructor
  · intro es pair
    exact (invRun es).uniqActive pair
  · intro db n par a st pr bu cp t hval ha hst1 hst2 hfind
    unfold openAtomic
    simp only [hval]
    rw [if_neg (not_le.mpr ha)]
    rw [if_neg (by rw [not_or]; exact ⟨not_le.mpr hst1, not_le.mpr hst2⟩)]
    rw [if_neg (by simp)]
    simp only [hfind]
    refine ⟨?_, ?_⟩ <;> first | rfl | trivial

theorem c2_amended_witness :
    (runEvents scenarioEvents).db.countP
      (fun t => t.pair == "ABCUSD" && t.status == Status.active) ≤ 1 ∧
    (openAtomic dbDemo 1 "ABCUSD" 100 5 true (some 10) true).result = OpenResult.skip 0 ∧
    (openAtomic dbDemo 1 "ABCUSD" 100 5 true (some 10) true).db = dbDemo := by
  have h2 := c2_amended.2 dbDemo 1 "ABCUSD" 100 5 (some 10) true "ABCUSD" tradeDemo
    (by decide) (by norm_num) (by norm_num) (by norm_num) (by decide)
  exact ⟨c2_amended.1 scenarioEvents "ABCUSD", h2.1, h2.2⟩

/-- Claim C3, counterexample: the tick does not submit the sell
unconditionally when the price is at or below the stop price: `checkTrade`
first runs the pre-sell `checkBalance` and throws before calling `AddOrder`
when it fails, so for the demo position at price 9 (which is at or below the
stop price 9.5) with a failing balance check no sell order is submitted,
refuting the unqualified biconditional of the claim. -/
theorem c3_counterexample :
    (9:ℚ) ≤ max tradeDemo.highestPrice 9 * (1 - tradeDemo.stopPercent / 100) ∧
    (checkTradeStep tradeDemo (some 9) false SellOutcome.success).sellSubmitted = false := by
  constructor
  · show (9:ℚ) ≤ max 10 9 * (1 - 5 / 100)
    rw [max_eq_left (by norm_num)]
    norm_num
  · show (checkTradeStep (mkTrade 0 "ABCUSD" 10 5 10) (some 9) false
      SellOutcome.success).sellSubmitted = false
    simp only [checkTradeStep, mkTrade]
    norm_num

/-- Claim C3, amended: for an active position processed with fetched price p,
the tick computes the new high-water mark as the maximum of the stored one
and p and the stop price as newHWM * (1 - stopPercent / 100); PROVIDED the
pre-sell balance check passes, the sell is submitted exactly when p is at or
below the stop price, and a successful sell completes the position with
exitPrice p and exitProfitPercent (p - entryPrice) / entryPrice * 100; when
the pre-sell balance check fails, no sell is submitted even when p is at or
below the stop price (and the position keeps its status). The price sequence
[10, 12, 11.3] with stop 5 percent exits at 11.3 with 13 percent profit. -/
theorem c3_trailing_stop :
    (∀ (t : Trade) (p : ℚ) (oc : SellOutcome), 0 < p →
      ((checkTradeStep t (some p) true oc).sellSubmitted = true ↔
        p ≤ max t.highestPrice p * (1 - t.stopPercent / 100))) ∧
    (∀ (t : Trade) (p : ℚ), 0 < p →
      p ≤ max t.highestPrice p * (1 - t.stopPercent / 100) →
      applyCheckWrites (checkTradeStep t (some p) true SellOutcome.success) t =
        { t with
          highestPrice := max t.highestPrice p
          status := Status.completed
          sellPrice := some p
          profitPercent := some ((p - t.buyPrice) / t.buyPrice * 100) }) ∧
    (∀ (t : Trade) (p : ℚ) (oc : SellOutcome),
      (checkTradeStep t (some p) false oc).sellSubmitted = false ∧
      (applyCheckWrites (checkTradeStep t (some p) false oc) t).status = t.status) ∧
    runEvents scenarioEvents =
      ⟨[⟨0, "ABCUSD", 10, 5, 12, 10, some (113/10), some 13, Status.completed⟩], 1, [0]⟩ := by
  refine ⟨?_, ?_, ?_, scenarioFinal⟩
  · intro t p oc hp
    by_cases hle : p ≤ max t.highestPrice p * (1 - t.stopPercent / 100)
    · rcases oc <;> simp [checkTradeStep, ne_of_gt hp, hle]
    · rcases oc <;> simp [checkTradeStep, ne_of_gt hp, hle]
  · intro t p hp hle
    by_cases hlt : t.highestPrice < max t.highestPrice p
    · simp [checkTradeStep, applyCheckWrites, ne_of_gt hp, hle, hlt]
    · have hmx : max t.highestPrice p = t.highestPrice :=
        le_antisymm (not_lt.mp hlt) (le_max_left _ _)
      have hle2 : p ≤ t.highestPrice * (1 - t.stopPercent / 100) := hmx ▸ hle
      simp [checkTradeStep, applyCheckWrites, ne_of_gt hp, hlt, hmx, hle2]
  · intro t p oc
    by_cases hp : p = 0
    · simp [checkTradeStep, applyCheckWrites, hp]
    · by_cases hle : p ≤ max t.highestPrice p * (1 - t.stopPercent / 100) <;>
        by_cases hlt : t.highestPrice < max t.highestPrice p <;>
        rcases oc <;>
        simp [checkTradeStep, applyCheckWrites, hp, hle, hlt]

theorem c3_trailing_stop_witness :
    (checkTradeStep tradeDemo (some 9) true SellOutcome.success).sellSubmitted = true ∧
    applyCheckWrites (checkTradeStep tradeDemo (some 9) true SellOutcome.success) tradeDemo =
      { tradeDemo with
        highestPrice := max tradeDemo.highestPrice 9
        status := Status.completed
        sellPrice := some 9
        profitPercent := some ((9 - tradeDemo.buyPrice) / tradeDemo.buyPrice * 100) } ∧
    (checkTradeStep tradeDemo (some 9) false SellOutcome.success).sellSubmitted = false := by
  have h9 : (9:ℚ) ≤ max tradeDemo.highestPrice 9 * (1 - tradeDemo.stopPercent / 100) := by
    show (9:ℚ) ≤ max 10 9 * (1 - 5 / 100)
    rw [max_eq_left (by norm_num)]
    norm_num
  exact ⟨(c3_trailing_stop.1 tradeDemo 9 SellOutcome.success (by norm_num)).mpr h9,
    c3_trailing_stop.2.1 tradeDemo 9 (by norm_num) h9,
    (c3_trailing_stop.2.2.1 tradeDemo 9 SellOutcome.success).1⟩

theorem venderDemoEval :
    venderAtomic dbDemo "ABCUSD" 50 8 (some 11) SellOutcome.success =
    ⟨[⟨0, "ABCUSD", 10, 5, 10, 10, some 11, some 10, Status.completed⟩],
      some (0, 4, 11, 10), [0]⟩ := by
  simp only [venderAtomic, validABCUSD, dbDemo, tradeDemo, mkTrade, findActive, List.find?,
    updateById, floor8]
  norm_num

/-- Claim C4, counterexample: the manual close path of `/vender` writes the
status value "completed" to the closed row, the same status the tick exit
writes, not a distinct status "manual" as the claim states; no "manual"
status exists anywhere in the code. -/
theorem c4_counterexample :
    ((venderAtomic dbDemo "ABCUSD" 50 8 (some 11) SellOutcome.success).db.map
      (fun t => statusText t.status)) = ["completed"] ∧
    ("completed" : String) ≠ "manual" := by
  rw [venderDemoEval]
  decide

/-- Claim C4, amended: ClosePosition with percent in (0, 100] and an existing
active position computes sell volume = balance * percent / 100 floored to 8
decimals, rejects non-positive volume, and on a successful sell updates the
existing row in place (no new record, table length unchanged) with status
"completed" (not a distinct "manual" status), exitPrice = current price and
profit computed against the stored buyPrice; percent 50 of balance 8 sells
volume 4. -/
theorem c4_amended :
    (∀ (db : List Trade) (par : String) (cp : String) (percent balance p : ℚ) (t : Trade),
      validateTradingPair par = some cp →
      findActive db cp = some t →
      0 < percent → percent ≤ 100 →
      0 < floor8 (balance * percent / 100) →
      0 < p →
      (venderAtomic db par percent balance (some p) SellOutcome.success).result =
        some (t.id, floor8 (balance * percent / 100), p,
          (p - t.buyPrice) / t.buyPrice * 100) ∧
      (venderAtomic db par percent balance (some p) SellOutcome.success).db =
        updateById t.id (fun c => { c with
          status := Status.completed
          sellPrice := some p
          profitPercent := some ((p - t.buyPrice) / t.buyPrice * 100) }) db ∧
      ((venderAtomic db par percent balance (some p) SellOutcome.success).db).length =
        db.length) ∧
    floor8 (8 * 50 / 100) = 4 := by
  constructor
  · intro db par cp percent balance p t hval hfind hpc1 hpc2 hvol hp
    unfold venderAtomic
    simp only [hval]
    rw [if_neg (by rw [not_or]; exact ⟨not_le.mpr hpc1, not_lt.mpr hpc2⟩)]
    simp only [hfind]
    rw [if_neg (not_le.mpr hvol)]
    rw [if_neg (ne_of_gt hp)]
    exact ⟨rfl, rfl, updateById_length t.id _ db⟩
  · norm_num [floor8]

theorem c4_amended_witness :
    (venderAtomic dbDemo "ABCUSD" 50 8 (some 11) SellOutcome.success).result =
      some (tradeDemo.id, floor8 (8 * 50 / 100), 11,
        (11 - tradeDemo.buyPrice) / tradeDemo.buyPrice * 100) ∧
    ((venderAtomic dbDemo "ABCUSD" 50 8 (some 11) SellOutcome.success).db).length =
      dbDemo.length ∧
    floor8 (8 * 50 / 100) = 4 := by
  have h := c4_amended.1 dbDemo "ABCUSD" "ABCUSD" 50 8 11 tradeDemo
    (by decide) (by decide) (by norm_num) (by norm_num) (by norm_num [floor8]) (by norm_num)
  exact ⟨h.1, h.2.2, c4_amended.2⟩

/-- Claim C6, counterexample: `/alerta` calls `checkBalance` (a kraken
Balance account call) before the SELECT for an existing active trade, so the
skip path has already made one exchange call before returning. -/
theorem c6_counterexample :
    (openAtomic dbDemo 1 "ABCUSD" 100 5 true (some 10) true).result = OpenResult.skip 0 ∧
    (openAtomic dbDemo 1 "ABCUSD" 100 5 true (some 10) true).calls ≠ [] := by
  decide

/-- Claim C6, amended: opening an instrument that already has an active
position returns the skip result (not an error), inserts no row and submits
no order, but it does query the exchange Balance endpoint before the
active-position lookup, so one exchange call is made before returning. -/
theorem c6_amended :
    ∀ (db : List Trade) (n : Nat) (par : String) (a st : ℚ) (pr : Option ℚ) (bu : Bool)
      (cp : String) (t : Trade),
      validateTradingPair par = some cp → 0 < a → 0 < st → st < 100 →
      findActive db cp = some t →
      (openAtomic db n par a st true pr bu).result = OpenResult.skip t.id ∧
      (openAtomic db n par a st true pr bu).db = db ∧
      (openAtomic db n par a st true pr bu).nextId = n ∧
      (openAtomic db n par a st true pr bu).calls = [ExchangeCall.balanceQuery] ∧
      ExchangeCall.buyOrder ∉ (openAtomic db n par a st true pr bu).calls := by
  intro db n par a st pr bu cp t hval ha hst1 hst2 hfind
  have hopen : openAtomic db n par a st true pr bu =
      ⟨db, n, OpenResult.skip t.id, [ExchangeCall.balanceQuery]⟩ := by
    unfold openAtomic
    simp only [hval]
    rw [if_neg (not_le.mpr ha)]
    rw [if_neg (by rw [not_or]; exact ⟨not_le.mpr hst1, not_le.mpr hst2⟩)]
    rw [if_neg (by simp)]
    simp only [hfind]
  rw [hopen]
  refine ⟨rfl, rfl, rfl, rfl, ?_⟩
  simp

theorem c6_amended_witness :
    (openAtomic dbDemo 1 "ABCUSD" 100 5 true (some 10) true).db = dbDemo ∧
    (openAtomic dbDemo 1 "ABCUSD" 100 5 true (some 10) true).calls =
      [ExchangeCall.balanceQuery] ∧
    ExchangeCall.buyOrder ∉ (openAtomic dbDemo 1 "ABCUSD" 100 5 true (some 10) true).calls := by
  have h := c6_amended dbDemo 1 "ABCUSD" 100 5 (some 10) true "ABCUSD" tradeDemo
    (by decide) (by norm_num) (by norm_num) (by norm_num) (by decide)
  exact ⟨h.2.1, h.2.2.2.1, h.2.2.2.2⟩

theorem backfillDb_high (db : List Trade) :
    (backfillDb db).map (fun t => t.highestPrice) = db.map (fun t => t.highestPrice) := by
  unfold backfillDb
  rw [List.map_map]
  apply List.map_congr_left
  intro c _
  show (backfillRow c).highestPrice = c.highestPrice
  rcases backfillRow_cases c with h | ⟨_, _, sp, _, h⟩ <;> rw [h]

theorem highMono_step_ex (s : EngineState) (e : Event) (t : Trade)
    (hInv : EngineInv s) (ht : t ∈ s.db) :
    ∃ t2 ∈ (stepEv s e).db, t2.id = t.id ∧ t.highestPrice ≤ t2.highestPrice := by
  obtain ⟨db, n, sells⟩ := s
  simp only at ht
  rcases e with ⟨par, a, st, bo, pr, bu⟩ | ⟨id2, pr, bo, oc⟩ | ⟨par, pc, bal, pr, oc⟩ | _
  · show ∃ t2 ∈ (openAtomic db n par a st bo pr bu).db, _
    rcases openAtomic_cases db n par a st bo pr bu with ⟨hdb, _⟩ | ⟨cp, p, _, _, _, hdb, _⟩
    · rw [hdb]
      exact ⟨t, ht, rfl, le_refl _⟩
    · rw [hdb]
      exact ⟨t, List.mem_append_left _ ht, rfl, le_refl _⟩
  · rcases hf : findActiveById db id2 with _ | tr
    · have hstep : stepEv ⟨db, n, sells⟩ (Event.tickEv id2 pr bo oc) = ⟨db, n, sells⟩ := by
        simp only [stepEv, hf]
      rw [hstep]
      exact ⟨t, ht, rfl, le_refl _⟩
    · obtain ⟨htr, htrid, hact⟩ := findActiveById_spec db id2 tr hf
      have hstep : stepEv ⟨db, n, sells⟩ (Event.tickEv id2 pr bo oc) =
          ⟨updateById id2 (applyCheckWrites (checkTradeStep tr pr bo oc)) db, n,
            if (checkTradeStep tr pr bo oc).sellExecuted then sells ++ [id2] else sells⟩ := by
        simp only [stepEv, hf, applyWrites]
      rw [hstep]
      by_cases hid : t.id = id2
      · have hteq : t = tr := hInv.func t ht tr htr (hid.trans htrid.symm)
        refine ⟨applyCheckWrites (checkTradeStep tr pr bo oc) tr,
          updateById_mem_self id2 _ db tr htr htrid, ?_, ?_⟩
        · rw [(applyCheckWrites_preserved _ tr).1, hteq]
        · rw [hteq]
          rcases applyCheckWrites_high_cases (checkTradeStep tr pr bo oc) tr with h | ⟨h, hhw, heq⟩
          · rw [h]
          · rcases checkTradeStep_highWrite tr pr bo oc with h2 | ⟨p, hp, h2, hlt⟩
            · rw [h2] at hhw
              exact Option.noConfusion hhw
            · rw [h2] at hhw
              rw [heq, ← Option.some_inj.mp hhw]
              exact le_max_left _ _
      · exact ⟨t, updateById_mem_of_ne id2 _ db t ht hid, rfl, le_refl _⟩
  · show ∃ t2 ∈ (venderAtomic db par pc bal pr oc).db, _
    rcases venderAtomic_cases db par pc bal pr oc with ⟨hdb, _⟩ |
      ⟨cp, tr, p, _, hfind, _, _, hdb, _⟩
    · rw [hdb]
      exact ⟨t, ht, rfl, le_refl _⟩
    · obtain ⟨htr, _, _⟩ := findActive_spec db cp tr hfind
      rw [hdb]
      by_cases hid : t.id = tr.id
      · have hteq : t = tr := hInv.func t ht tr htr hid
        refine ⟨_, updateById_mem_self tr.id _ db tr htr rfl, ?_, ?_⟩
        · simp [hteq]
        · simp [hteq]
      · exact ⟨t, updateById_mem_of_ne tr.id _ db t ht hid, rfl, le_refl _⟩
  · show ∃ t2 ∈ db.map backfillRow, _
    refine ⟨backfillRow t, List.mem_map.mpr ⟨t, ht, rfl⟩, ?_, ?_⟩
    · rcases backfillRow_cases t with h | ⟨_, _, sp, _, h⟩ <;> rw [h]
    · rcases backfillRow_cases t with h | ⟨_, _, sp, _, h⟩ <;> rw [h]

theorem highMono_run (es : List Event) (s : EngineState) (t : Trade)
    (hInv : EngineInv s) (ht : t ∈ s.db) :
    ∀ t2 ∈ (runFrom s es).db, t2.id = t.id → t.highestPrice ≤ t2.highestPrice := by
  induction es generalizing s t with
  | nil =>
    intro t2 h2 hids
    rw [hInv.func t2 h2 t ht hids]
  | cons e es ih =>
    intro t2 h2 hids
    obtain ⟨t3, ht3, ht3id, ht3le⟩ := highMono_step_ex s e t hInv ht
    refine le_trans ht3le (ih (stepEv s e) t3 (invStep s e hInv) ht3 t2 h2 ?_)
    rw [hids, ht3id]

/-- Claim C5: the high-water mark is initialised at open to the entry price,
dominates the entry price in every reachable state, never decreases across
any sequence of engine events for a given position id, is left unchanged by
every operation other than the tick (open only appends rows, the manual
close and the backfill keep it), and the tick issues the highestPrice UPDATE
exactly when the new maximum strictly exceeds the stored value. -/
theorem c5_high_water_mark :
    (∀ (db : List Trade) (n : Nat) (par : String) (a st : ℚ) (bo : Bool) (pr : Option ℚ)
      (bu : Bool), ∀ t2 ∈ (openAtomic db n par a st bo pr bu).db,
      t2 ∈ db ∨ t2.highestPrice = t2.buyPrice) ∧
    (∀ es : List Event, ∀ t ∈ (runEvents es).db, t.buyPrice ≤ t.highestPrice) ∧
    (∀ (es : List Event) (s : EngineState) (t : Trade), EngineInv s → t ∈ s.db →
      ∀ t2 ∈ (runFrom s es).db, t2.id = t.id → t.highestPrice ≤ t2.highestPrice) ∧
    (∀ (db : List Trade) (par : String) (pc bal : ℚ) (pr : Option ℚ) (oc : SellOutcome),
      (venderAtomic db par pc bal pr oc).db.map (fun t => t.highestPrice) =
        db.map (fun t => t.highestPrice)) ∧
    (∀ db : List Trade,
      (backfillDb db).map (fun t => t.highestPrice) = db.map (fun t => t.highestPrice)) ∧
    (∀ (t : Trade) (p : ℚ) (bo : Bool) (oc : SellOutcome), p ≠ 0 →
      ((checkTradeStep t (some p) bo oc).highWrite ≠ none ↔
        t.highestPrice < max t.highestPrice p)) := by
  refine ⟨?_, ?_, ?_, ?_, backfillDb_high, ?_⟩
  · intro db n par a st bo pr bu t2 h2
    rcases openAtomic_cases db n par a st bo pr bu with ⟨hdb, _⟩ | ⟨cp, p, _, _, _, hdb, _⟩
    · rw [hdb] at h2
      exact Or.inl h2
    · rw [hdb] at h2
      rcases List.mem_append.mp h2 with h | h
      · exact Or.inl h
      · rw [List.mem_singleton.mp h]
        exact Or.inr rfl
  · intro es t ht
    exact (invRun es).hwm t ht
  · intro es s t hInv ht t2 h2 hids
    exact highMono_run es s t hInv ht t2 h2 hids
  · intro db par pc bal pr oc
    rcases venderAtomic_cases db par pc bal pr oc with ⟨hdb, _⟩ |
      ⟨cp, tr, p, _, _, _, _, hdb, _⟩
    · rw [hdb]
    · rw [hdb]
      unfold updateById
      rw [List.map_map]
      apply List.map_congr_left
      intro c _
      show (if c.id == tr.id then _ else c).highestPrice = c.highestPrice
      split <;> rfl
  · intro t p bo oc hp
    rcases oc <;> rcases bo <;>
      simp only [checkTradeStep, if_neg hp] <;>
      by_cases hlt : t.highestPrice < max t.highestPrice p <;>
      split_ifs <;> simp_all

theorem c5_high_water_mark_witness :
    (tradeDemo ∈ dbDemo ∨ tradeDemo.highestPrice = tradeDemo.buyPrice) ∧
    (⟨0, "ABCUSD", 10, 5, 12, 10, some (113/10), some 13, Status.completed⟩ : Trade).buyPrice ≤
      (⟨0, "ABCUSD", 10, 5, 12, 10, some (113/10), some 13,
        Status.completed⟩ : Trade).highestPrice ∧
    ((checkTradeStep tradeDemo (some 12) true SellOutcome.success).highWrite ≠ none ↔
      tradeDemo.highestPrice < max tradeDemo.highestPrice 12) := by
  refine ⟨?_, ?_, ?_⟩
  · exact c5_high_water_mark.1 dbDemo 1 "ABCUSD" 100 5 true (some 10) true tradeDemo
      (by decide)
  · exact c5_high_water_mark.2.1 scenarioEvents
      ⟨0, "ABCUSD", 10, 5, 12, 10, some (113/10), some 13, Status.completed⟩
      (by rw [scenarioFinal]; exact List.mem_singleton.mpr rfl)
  · exact c5_high_water_mark.2.2.2.2.2 tradeDemo 12 true SellOutcome.success (by norm_num)

/-- Claim C7: when the exchange rejects the tick exit sell with Insufficient
funds, the position is written to the terminal error status ("errored" in the
spec wording, the TEXT value "error" in the table); from any state in which
every row of a position id has that status, no later sequence of engine
events changes those rows and no exit sell is ever executed for that id (the
periodic SELECT only returns active rows); a failed price fetch or an
exchange failure other than the Insufficient-funds rejection leaves the
position status unchanged, i.e. active for retry on the next tick. -/
theorem c7_error_terminal :
    (∀ (t : Trade) (p : ℚ), 0 < p →
      p ≤ max t.highestPrice p * (1 - t.stopPercent / 100) →
      (applyCheckWrites
        (checkTradeStep t (some p) true SellOutcome.rejectedInsufficientFunds) t).status =
        Status.error) ∧
    (∀ (s : EngineState) (es : List Event) (id : Nat), EngineInv s →
      (∃ t ∈ s.db, t.id = id) →
      (∀ t ∈ s.db, t.id = id → t.status = Status.error) →
      (∀ t ∈ (runFrom s es).db, t.id = id → t.status = Status.error) ∧
      (runFrom s es).sells.count id = s.sells.count id) ∧
    (∀ (t : Trade) (bo : Bool) (oc : SellOutcome),
      (applyCheckWrites (checkTradeStep t none bo oc) t).status = t.status) ∧
    (∀ (t : Trade) (p : ℚ) (bo : Bool),
      (applyCheckWrites (checkTradeStep t (some p) bo SellOutcome.unavailable) t).status =
        t.status) := by
  refine ⟨?_, ?_, ?_, ?_⟩
  · intro t p hp hle
    by_cases hlt : t.highestPrice < max t.highestPrice p <;>
      simp [checkTradeStep, applyCheckWrites, ne_of_gt hp, hle, hlt]
  · intro s es id hInv hEx hErr
    exact errorRow_run s es id hInv hEx hErr
  · intro t bo oc
    rfl
  · intro t p bo
    by_cases hp : p = 0
    · simp [checkTradeStep, applyCheckWrites, hp]
    · by_cases hle : p ≤ max t.highestPrice p * (1 - t.stopPercent / 100) <;>
        by_cases hlt : t.highestPrice < max t.highestPrice p <;>
        rcases bo <;>
        simp [checkTradeStep, applyCheckWrites, hp, hle, hlt]

theorem c7_error_terminal_witness :
    (applyCheckWrites
      (checkTradeStep tradeDemo (some 9) true SellOutcome.rejectedInsufficientFunds)
      tradeDemo).status = Status.error ∧
    (∀ t ∈ (runFrom (runEvents erroredEvents)
        [Event.tickEv 0 (some 9) true SellOutcome.success]).db,
      t.id = 0 → t.status = Status.error) ∧
    (runFrom (runEvents erroredEvents)
      [Event.tickEv 0 (some 9) true SellOutcome.success]).sells.count 0 =
      (runEvents erroredEvents).sells.count 0 ∧
    (applyCheckWrites (checkTradeStep tradeDemo none true SellOutcome.success)
      tradeDemo).status = tradeDemo.status ∧
    (applyCheckWrites (checkTradeStep tradeDemo (some 12) true SellOutcome.unavailable)
      tradeDemo).status = tradeDemo.status := by
  have h9 : (9:ℚ) ≤ max tradeDemo.highestPrice 9 * (1 - tradeDemo.stopPercent / 100) := by
    show (9:ℚ) ≤ max 10 9 * (1 - 5 / 100)
    rw [max_eq_left (by norm_num)]
    norm_num
  have hterm := c7_error_terminal.2.1 (runEvents erroredEvents)
    [Event.tickEv 0 (some 9) true SellOutcome.success] 0 (invRun erroredEvents)
    (by rw [erroredFinal]; exact ⟨_, List.mem_singleton.mpr rfl, rfl⟩)
    (by rw [erroredFinal]
        intro t htm _
        rw [List.mem_singleton.mp htm])
  exact ⟨c7_error_terminal.1 tradeDemo 9 (by norm_num) h9, hterm.1, hterm.2,
    c7_error_terminal.2.2.1 tradeDemo true SellOutcome.success,
    c7_error_terminal.2.2.2 tradeDemo 12 true⟩

/-- Claim C8, counterexample: the server variant of `calculateQuantity`
applies `toFixed(8)` (round to nearest), not a floor; opening with
notional 2 at price 3 persists quantity 0.66666667, which exceeds the exact
quotient 2 / 3 and the floored value 0.66666666, so the quantity is rounded
up, contradicting the floored, never-up claim. -/
theorem c8_counterexample :
    (openAtomic [] 0 "ABCUSD" 2 5 true (some 3) true).db.map (fun t => t.quantity) =
      [66666667 / 100000000] ∧
    quantityFlooredSpec 2 3 = 66666666 / 100000000 ∧
    ¬ (66666667 : ℚ) / 100000000 ≤ 2 / 3 := by
  refine ⟨?_, ?_, ?_⟩
  · simp only [openAtomic, validABCUSD, findActive, List.find?, mkTrade]
    norm_num [calcQ_2_3]
  · norm_num [quantityFlooredSpec]
  · norm_num

/-- Claim C8, amended: for every open with a notional sizing input that
inserts a row, the persisted quantity is the notional divided by the price
rounded to the NEAREST multiple of 10 ^ (-8) (the toFixed(8) semantics,
which can round up), not floored; the example holds: notional 100 at price
10 yields quantity 10.00000000 with highWaterMark = entryPrice = 10. -/
theorem c8_amended :
    (∀ (db : List Trade) (n : Nat) (par : String) (cp : String) (a st p : ℚ),
      validateTradingPair par = some cp →
      0 < a → 0 < st → st < 100 →
      findActive db cp = none → 0 < p →
      (openAtomic db n par a st true (some p) true).db =
        db ++ [mkTrade n cp ((round (a / p * 100000000) : ℚ) / 100000000) st p]) ∧
    calculateQuantity 100 10 "ABCUSD" = 10 ∧
    (openAtomic [] 0 "ABCUSD" 100 5 true (some 10) true).db =
      [{ id := 0, pair := "ABCUSD", quantity := 10, stopPercent := 5, highestPrice := 10,
         buyPrice := 10, sellPrice := none, profitPercent := none,
         status := Status.active }] := by
  refine ⟨?_, calcQ_100_10, ?_⟩
  · intro db n par cp a st p hval ha hst1 hst2 hfind hp
    unfold openAtomic
    simp only [hval]
    rw [if_neg (not_le.mpr ha)]
    rw [if_neg (by rw [not_or]; exact ⟨not_le.mpr hst1, not_le.mpr hst2⟩)]
    rw [if_neg (by simp)]
    simp only [hfind]
    rw [if_neg (ne_of_gt hp)]
    simp only [Bool.not_true]
    rw [if_neg (by simp)]
    simp only [calcQ_eq]
  · exact congrArg EngineState.db scenarioStep1

theorem c8_amended_witness :
    (openAtomic [] 0 "ABCUSD" 100 5 true (some 10) true).db =
      [] ++ [mkTrade 0 "ABCUSD" ((round ((100:ℚ) / 10 * 100000000) : ℚ) / 100000000) 5 10] :=
  c8_amended.1 [] 0 "ABCUSD" "ABCUSD" 100 5 10 (by decide) (by norm_num) (by norm_num)
    (by norm_num) (by decide) (by norm_num)

/-- Claim C9: every position whose status is neither active nor the error
status (that is, every completed row, whether closed by the tick or by the
manual close) satisfies exitProfitPercent =
(exitPrice - entryPrice) / entryPrice * 100 over the stored columns, in
every state reachable by any sequence of opens, ticks, manual closes and
startup backfills. -/
theorem c9_profit_equation (es : List Event) (t : Trade)
    (ht : t ∈ (runEvents es).db)
    (h1 : t.status ≠ Status.active) (h2 : t.status ≠ Status.error) :
    ∃ sp, t.sellPrice = some sp ∧
      t.profitPercent = some ((sp - t.buyPrice) / t.buyPrice * 100) := by
  have hc : t.status = Status.completed := by
    rcases h : t.status
    · exact absurd h h1
    · rfl
    · exact absurd h h2
  exact (invRun es).profitEq t ht hc

theorem c9_profit_equation_witness :
    ∃ sp, (⟨0, "ABCUSD", 10, 5, 12, 10, some (113/10), some 13,
        Status.completed⟩ : Trade).sellPrice = some sp ∧
      (⟨0, "ABCUSD", 10, 5, 12, 10, some (113/10), some 13,
        Status.completed⟩ : Trade).profitPercent =
        some ((sp - (⟨0, "ABCUSD", 10, 5, 12, 10, some (113/10), some 13,
          Status.completed⟩ : Trade).buyPrice) /
          (⟨0, "ABCUSD", 10, 5, 12, 10, some (113/10), some 13,
            Status.completed⟩ : Trade).buyPrice * 100) :=
  c9_profit_equation scenarioEvents
    ⟨0, "ABCUSD", 10, 5, 12, 10, some (113/10), some 13, Status.completed⟩
    (by rw [scenarioFinal]; exact List.mem_singleton.mpr rfl)
    (by decide) (by decide)

/-- Claim C10: the engine takes the quote currency of a pair as its last
three characters and the base asset as everything before them, while
`validateTradingPair` also accepts the four-character quote currency USDT;
hence every accepted pair ending in USDT gets quote currency "SDT" (not
"USDT") in the open balance check, and a base asset carrying a trailing
letter U in the tick and manual-close balance checks, so those balance
lookups name a non-existent asset. -/
theorem c10_usdt_slicing (par cp : String)
    (_hval : validateTradingPair par = some cp)
    (hUSDT : endsWithStr cp "USDT" = true) :
    jsSliceLast3 cp = "SDT" ∧ jsSliceLast3 cp ≠ "USDT" ∧
    ∃ base : List Char, cp.data = base ++ "USDT".data ∧
      jsSliceDropLast3 cp = String.mk (base ++ ['U']) := by
  have hsuf : "USDT".data <:+ cp.data := List.isSuffixOf_iff_suffix.mp hUSDT
  obtain ⟨pre, hpre⟩ := hsuf
  have h1 : jsSliceLast3 cp = "SDT" := by
    show String.mk (cp.data.drop (cp.data.length - 3)) = "SDT"
    rw [← hpre]
    have h4 : (pre ++ "USDT".data).length - 3 = pre.length + 1 := by
      simp [List.length_append]
    rw [h4, List.drop_append]
    decide
  refine ⟨h1, by rw [h1]; decide, pre, hpre.symm, ?_⟩
  show String.mk (cp.data.take (cp.data.length - 3)) = String.mk (pre ++ ['U'])
  rw [← hpre]
  have h4 : (pre ++ "USDT".data).length - 3 = pre.length + 1 := by
    simp [List.length_append]
  rw [h4, List.take_append]
  have h5 : List.take 1 ("USDT").data = ['U'] := by decide
  rw [h5]

theorem c10_usdt_slicing_witness :
    jsSliceLast3 "ADAUSDT" = "SDT" ∧ jsSliceLast3 "ADAUSDT" ≠ "USDT" ∧
    ∃ base : List Char, ("ADAUSDT" : String).data = base ++ "USDT".data ∧
      jsSliceDropLast3 "ADAUSDT" = String.mk (base ++ ['U']) :=
  c10_usdt_slicing "ADAUSDT" "ADAUSDT" (by decide) (by decide)
